import Mathlib

/-!
gcp-helpers: `bqurl`, `gsurl` and `gsutil`

A shallow embedding of the two identifier parsers of the repository
(`bqurl/bqurl.go`, `gsurl/gsurl.go`) and of the read helper built on the second
(`gsutil/gsutil.go`), and the properties of them that the specification states.

Go strings are byte sequences, so a string is a list of bytes here.  `len`,
slicing, `strings.Index` and `strings.TrimLeft` with a one-byte ASCII argument
work on bytes; the conversion `[]rune(s)` decodes UTF-8 and yields U+FFFD
for every byte that is not part of a valid encoding.
-/

namespace GcpHelpers

/-! ## Go strings and runes -/

/-- One byte of a Go string. -/
abbrev Byte := Fin 256

/-- A Go `string`: an arbitrary sequence of bytes (not necessarily UTF-8). -/
abbrev GoString := List Byte

/-- The bytes of a string literal, in UTF-8 as the Go compiler stores it. -/
def lit (s : String) : GoString := s.toUTF8.data.toList.map (fun b => b.val)

/-- The byte of an ASCII character literal such as `':'`. -/
def byteOf (c : Char) : Byte := Fin.ofNat c.toNat

/-- The constant `utf8.RuneError`, U+FFFD.  A Go `rune` is a code point; the
values that decoding produces are never negative, so a rune is a `Nat` here. -/
def RuneError : Nat := 0xFFFD

/-- The size in bytes of the encoding that the leading byte `s0` announces,
for `s0` from `0xC2` to `0xF4` (Go's table `first`, low bits). -/
def runeSize (s0 : Byte) : Nat :=
  if s0.val < 0xE0 then 2 else if s0.val < 0xF0 then 3 else 4

/-- The least second byte accepted after the leading byte `s0` (Go's
`acceptRanges`, field `lo`). -/
def acceptLo (s0 : Byte) : Nat :=
  if s0.val = 0xE0 then 0xA0 else if s0.val = 0xF0 then 0x90 else 0x80

/-- The greatest second byte accepted after the leading byte `s0` (Go's
`acceptRanges`, field `hi`). -/
def acceptHi (s0 : Byte) : Nat :=
  if s0.val = 0xED then 0x9F else if s0.val = 0xF4 then 0x8F else 0xBF

/-- Go's `utf8.DecodeRuneInString`: the first code point of `s` and the number
of bytes it takes.  An empty string gives `(RuneError, 0)`, a byte that does not
start a valid encoding gives `(RuneError, 1)`. -/
def decodeRune : GoString → Nat × Nat
  | [] => (RuneError, 0)
  | s0 :: rest =>
    if s0.val < 0x80 then (s0.val, 1)
    else if s0.val < 0xC2 ∨ 0xF4 < s0.val then (RuneError, 1)
    else
      match rest with
      | [] => (RuneError, 1)
      | s1 :: rest1 =>
        if s1.val < acceptLo s0 ∨ acceptHi s0 < s1.val then (RuneError, 1)
        else if runeSize s0 ≤ 2 then ((s0.val &&& 0x1F) <<< 6 ||| (s1.val &&& 0x3F), 2)
        else
          match rest1 with
          | [] => (RuneError, 1)
          | s2 :: rest2 =>
            if s2.val < 0x80 ∨ 0xBF < s2.val then (RuneError, 1)
            else if runeSize s0 ≤ 3 then
              ((s0.val &&& 0x0F) <<< 12 ||| (s1.val &&& 0x3F) <<< 6 ||| (s2.val &&& 0x3F), 3)
            else
              match rest2 with
              | [] => (RuneError, 1)
              | s3 :: _ =>
                if s3.val < 0x80 ∨ 0xBF < s3.val then (RuneError, 1)
                else
                  ((s0.val &&& 0x07) <<< 18 ||| (s1.val &&& 0x3F) <<< 12 |||
                    (s2.val &&& 0x3F) <<< 6 ||| (s3.val &&& 0x3F), 4)

/-- The runes of `s` once the next `skip` bytes, which belong to the rune
decoded last, have been passed over. -/
def runesFrom : Nat → GoString → List Nat
  | _, [] => []
  | skip + 1, _ :: rest => runesFrom skip rest
  | 0, s0 :: rest =>
    (decodeRune (s0 :: rest)).1 :: runesFrom ((decodeRune (s0 :: rest)).2 - 1) rest

/-- The Go conversion `[]rune(s)`. -/
def toRunes (s : GoString) : List Nat := runesFrom 0 s

/-- Go's `strings.Index(s, string(c))` for a single byte `c`: the index of the
first `c` in `s`, or `-1` when there is none. -/
def stringsIndex : GoString → Byte → Int
  | [], _ => -1
  | b :: rest, c =>
    if b = c then 0
    else if stringsIndex rest c > -1 then stringsIndex rest c + 1 else -1

/-- Go's `strings.TrimLeft(s, string(c))` for a single ASCII byte `c`: `s`
without its leading run of `c`. -/
def stringsTrimLeft : GoString → Byte → GoString
  | [], _ => []
  | b :: rest, c => if b = c then stringsTrimLeft rest c else b :: rest

/-! ## Package bqurl -/

namespace bqurl

/-- The struct `bqurl.URL`. -/
structure URL where
  ProjectID : GoString
  DatasetID : GoString
  TableID : GoString
  deriving DecidableEq, Repr

/-- The `for _, r := range runes` loop of `validateProjectID`. -/
def projectLoop : List Nat → Option String
  | [] => none
  | r :: rs =>
    if r ≥ 'a'.toNat ∧ r ≤ 'z'.toNat then projectLoop rs
    else if r ≥ '0'.toNat ∧ r ≤ '9'.toNat then projectLoop rs
    else if r = '-'.toNat then projectLoop rs
    else some "project_id may only contain lowercase letters, digits, or hyphens"

/-- The function `validateProjectID`; `none` is the `nil` error, `some msg` is
`errors.New(msg)`.  Both indexings of `runes` are in range, because `p` is not
empty where they are reached (`toRunes_ne_nil`), so the default of `getD` is
never used. -/
def validateProjectID (p : GoString) : Option String :=
  if p = [] then none
  else if p.length < 6 then some "project_id must be at least 6 characters"
  else if p.length > 30 then some "project_id must be no more then 30 characters"
  else
    let runes := toRunes p
    if runes.getD 0 0 < 'a'.toNat ∨ runes.getD 0 0 > 'z'.toNat then
      some "project_id must start with a lowercase letter"
    else if runes.getD (runes.length - 1) 0 = '-'.toNat then
      some "project_id must not end with a hyphen"
    else projectLoop runes

/-- The `for _, r := range runes` loop of `validateDatasetID` and of
`validateTableID`, which differ in the message only. -/
def wordLoop (msg : String) : List Nat → Option String
  | [] => none
  | r :: rs =>
    if r ≥ 'a'.toNat ∧ r ≤ 'z'.toNat then wordLoop msg rs
    else if r ≥ 'A'.toNat ∧ r ≤ 'Z'.toNat then wordLoop msg rs
    else if r ≥ '0'.toNat ∧ r ≤ '9'.toNat then wordLoop msg rs
    else if r = '_'.toNat then wordLoop msg rs
    else some msg

/-- The function `validateDatasetID`. -/
def validateDatasetID (d : GoString) : Option String :=
  if d = [] then none
  else if d.length > 1024 then some "dataset_id must be no more then 1024 characters"
  else
    wordLoop
      "dataset_id may only contain lowercase letters, uppercase letters, digits, or underscores"
      (toRunes d)

/-- The function `validateTableID`. -/
def validateTableID (t : GoString) : Option String :=
  if t.length < 1 then some "table_id must be at least 1 character"
  else if t.length > 1024 then some "table_id must be no more then 1024 characters"
  else
    wordLoop
      "table_id may only contain lowercase letters, uppercase letters, digits, or underscores"
      (toRunes t)

/-- The two `strings.Index` steps of `Parse`: cut `u` at the first occurrence
of `c` when there is one, giving the part before it and the part after it. -/
def cut (u : GoString) (c : Byte) : GoString × GoString :=
  if stringsIndex u c > -1 then
    (u.take (stringsIndex u c).toNat, u.drop ((stringsIndex u c).toNat + 1))
  else ([], u)

/-- The function `bqurl.Parse`; `.error msg` is `(nil, errors.New(msg))`. -/
def Parse (u : GoString) : Except String URL :=
  if u = [] then .error "url must not be blank"
  else
    let p := (cut u (byteOf ':')).1
    let u1 := (cut u (byteOf ':')).2
    let d := (cut u1 (byteOf '.')).1
    let t := (cut u1 (byteOf '.')).2
    match validateProjectID p with
    | some err => .error err
    | none =>
      match validateDatasetID d with
      | some err => .error err
      | none =>
        match validateTableID t with
        | some err => .error err
        | none => .ok { ProjectID := p, DatasetID := d, TableID := t }

/-- The table-id component of an input: what remains after removing the part up
to the first `:` and then the part up to the first `.`; it is the `t` of `Parse`. -/
def tablePart (u : GoString) : GoString := (cut (cut u (byteOf ':')).2 (byteOf '.')).2

/-! ### The field rules, as the specification words them

The characters of a string are its runes, `toRunes s`; its length in
characters is `(toRunes s).length`. -/

/-- A lowercase letter `a` to `z`. -/
def IsLower (r : Nat) : Prop := 'a'.toNat ≤ r ∧ r ≤ 'z'.toNat

/-- An uppercase letter `A` to `Z`. -/
def IsUpper (r : Nat) : Prop := 'A'.toNat ≤ r ∧ r ≤ 'Z'.toNat

/-- A digit `0` to `9`. -/
def IsDigit (r : Nat) : Prop := '0'.toNat ≤ r ∧ r ≤ '9'.toNat

/-- A character allowed in a project-id: lowercase letter, digit or hyphen. -/
def ProjectChar (r : Nat) : Prop := IsLower r ∨ IsDigit r ∨ r = '-'.toNat

/-- A character allowed in a dataset-id or table-id: letter, digit or underscore. -/
def WordChar (r : Nat) : Prop := IsLower r ∨ IsUpper r ∨ IsDigit r ∨ r = '_'.toNat

/-- The project-id rule: 6 to 30 characters, only lowercase letters, digits and
hyphens, starting with a lowercase letter, not ending with a hyphen. -/
def ValidProjectID (p : GoString) : Prop :=
  6 ≤ (toRunes p).length ∧ (toRunes p).length ≤ 30 ∧ (∀ r ∈ toRunes p, ProjectChar r) ∧
    (∃ r, (toRunes p).head? = some r ∧ IsLower r) ∧ (toRunes p).getLast? ≠ some '-'.toNat

/-- The dataset-id and table-id rule: 1 to 1024 characters, only letters,
digits and underscores. -/
def ValidWordID (w : GoString) : Prop :=
  1 ≤ (toRunes w).length ∧ (toRunes w).length ≤ 1024 ∧ ∀ r ∈ toRunes w, WordChar r

instance (r : Nat) : Decidable (IsLower r) := by unfold IsLower; infer_instance
instance (r : Nat) : Decidable (IsUpper r) := by unfold IsUpper; infer_instance
instance (r : Nat) : Decidable (IsDigit r) := by unfold IsDigit; infer_instance
instance (r : Nat) : Decidable (ProjectChar r) := by unfold ProjectChar; infer_instance
instance (r : Nat) : Decidable (WordChar r) := by unfold WordChar; infer_instance
instance (p : GoString) : Decidable (ValidProjectID p) := by
  unfold ValidProjectID; infer_instance
instance (w : GoString) : Decidable (ValidWordID w) := by unfold ValidWordID; infer_instance

end bqurl

/-! ## Package gsurl -/

namespace gsurl

/-- The fields of Go's `net/url.URL` that matter to `gsurl.Parse` (`Scheme`,
`Host`, `Path`), with the two that take what follows `?` and `#`. -/
structure NetURL where
  Scheme : GoString
  Host : GoString
  Path : GoString
  RawQuery : GoString := []
  Fragment : GoString := []
  deriving DecidableEq, Repr

/-- An `error` value that `gsurl.Parse` returns: the error of the URI parser,
passed on as it is, or a fresh `errors.New(msg)`. -/
inductive Error (ε : Type) where
  | uri (err : ε)
  | new (msg : String)
  deriving DecidableEq, Repr

/-- The struct `gsurl.URL`. -/
structure URL where
  Bucket : GoString
  Object : GoString
  deriving DecidableEq, Repr

/-- The function `gsurl.Parse`.  The package variable `parseURL`, which holds
`net/url.Parse`, is the parameter `parseURL`; it returns an error or a URL. -/
def Parse {ε : Type} (parseURL : GoString → Except ε NetURL) (url : GoString) :
    Except (Error ε) URL :=
  match parseURL url with
  | .error err => .error (.uri err)
  | .ok u =>
    if u.Scheme ≠ lit "gs" then
      .error (.new
        "Invalid protocal specified, the only protocal that is permitted is \x27gs\x27.")
    else
      let bucket := u.Host
      let object := stringsTrimLeft u.Path (byteOf '/')
      if bucket = [] then .error (.new "Bucket name is required")
      else if object = [] then .error (.new "Object name is required")
      else .ok { Bucket := bucket, Object := object }

/-- What Go's `net/url.Parse` returns on the inputs of `gsurl_test.go` and on
`gs://a/b%3Fc` and `gs://a/b?c`.  The library is not part of the repository:
this table only supplies the parameter `parseURL` at these concrete inputs, and
answers every other input with an error of its own. -/
def parseURLSample (s : GoString) : Except String NetURL :=
  if s = lit "gs://aaa/b" then .ok { Scheme := lit "gs", Host := lit "aaa", Path := lit "/b" }
  else if s = lit "//a/b" then .ok { Scheme := [], Host := lit "a", Path := lit "/b" }
  else if s = lit "http://a/b" then
    .ok { Scheme := lit "http", Host := lit "a", Path := lit "/b" }
  else if s = lit "gs:///b" then .ok { Scheme := lit "gs", Host := [], Path := lit "/b" }
  else if s = lit "gs://a" then .ok { Scheme := lit "gs", Host := lit "a", Path := [] }
  else if s = lit "gs://a/" then .ok { Scheme := lit "gs", Host := lit "a", Path := lit "/" }
  else if s = lit "gs://bucket/object" then
    .ok { Scheme := lit "gs", Host := lit "bucket", Path := lit "/object" }
  else if s = lit "%" then .error "parse \"%\": invalid URL escape \"%\""
  else if s = lit "gs://a/b%3Fc" then
    .ok { Scheme := lit "gs", Host := lit "a", Path := lit "/b?c" }
  else if s = lit "gs://a/b?c" then
    .ok { Scheme := lit "gs", Host := lit "a", Path := lit "/b", RawQuery := lit "c" }
  else .error "input outside the table"

end gsurl

deriving instance DecidableEq for Except

/-! ## Package gsutil

`ReadFile` calls the storage SDK (`cloud.google.com/go/storage`), which is not
part of the repository.  What the SDK answers is the parameter `storage`; the
calls that `ReadFile` makes are recorded, in the order in which they happen, in
the list `calls` of the outcome.  The context `ctx` is only handed on to the SDK,
so it is part of what the SDK answers. -/

namespace gsutil

/-- A call of `ReadFile` to the storage SDK or to a handle obtained from it;
`ok` tells whether the call returned without an error. -/
inductive Event where
  | NewClient (ok : Bool)
  | NewReader (bucket object : GoString) (ok : Bool)
  | ReadAll (ok : Bool)
  | ReaderClose
  | ClientClose
  deriving DecidableEq, Repr

/-- The byte stream behind a `*storage.Reader`: the chunks that successive reads
deliver, and the error that ends the stream (`none` for `io.EOF`). -/
structure Stream (σ : Type) where
  chunks : List (List Byte)
  err : Option σ
  deriving DecidableEq, Repr

/-- Go's `ioutil.ReadAll`: everything read until the stream ends, and the error
that ended it, which is `nil` at `io.EOF`. -/
def ioutilReadAll {σ : Type} (rc : Stream σ) : List Byte × Option σ :=
  (rc.chunks.flatten, rc.err)

/-- What the storage SDK answers: the error of `storage.NewClient` (`none` when a
client is returned), and for a bucket and an object name the error of `NewReader`
or the stream of the reader it returns. -/
structure Storage (σ : Type) where
  NewClient : Option σ
  NewReader : GoString → GoString → Except σ (Stream σ)

/-- The struct `gsutil.ReadError`. -/
structure ReadError (σ : Type) where
  URL : GoString
  Err : σ
  deriving DecidableEq, Repr

/-- The struct `gsutil.InvalidURLError`; its `Err` is what `gsurl.Parse` returned. -/
structure InvalidURLError (ε : Type) where
  URL : GoString
  Err : gsurl.Error ε
  deriving DecidableEq, Repr

/-- The method `Error()` of an error that `gsurl.Parse` returns: the message of
`errors.New(msg)`, or what the URI parser's error gives as its message. -/
def errorText {ε : Type} (uriText : ε → GoString) : gsurl.Error ε → GoString
  | .uri err => uriText err
  | .new msg => lit msg

/-- The method `(*ReadError).Error`. -/
def ReadError.Error {σ : Type} (e : ReadError σ) : GoString :=
  lit "unable to read file " ++ e.URL

/-- The method `(*InvalidURLError).Error`. -/
def InvalidURLError.Error {ε : Type} (uriText : ε → GoString) (e : InvalidURLError ε) :
    GoString :=
  lit "invalid url " ++ e.URL ++ lit " " ++ errorText uriText e.Err

/-- The non-nil `error` values that `ReadFile` returns. -/
inductive Failure (ε σ : Type) where
  | invalidURL (e : InvalidURLError ε)
  | read (e : ReadError σ)
  deriving DecidableEq, Repr

/-- One run of `ReadFile`: what it returns (`.error e` is `(nil, e)`, `.ok bytes`
is `(bytes, nil)`) and the calls it made. -/
structure Outcome (ε σ : Type) where
  result : Except (Failure ε σ) (List Byte)
  calls : List Event

/-- The function `gsutil.ReadFile`.  `deferred` is the stack of deferred calls,
the one registered last on top; they run, top first, when the function returns. -/
def ReadFile {ε σ : Type} (parseURL : GoString → Except ε gsurl.NetURL)
    (storage : Storage σ) (url : GoString) : Outcome ε σ :=
  match gsurl.Parse parseURL url with
  | .error err => { result := .error (.invalidURL { URL := url, Err := err }), calls := [] }
  | .ok u =>
    match storage.NewClient with
    | some err =>
      { result := .error (.read { URL := url, Err := err }), calls := [.NewClient false] }
    | none =>
      let deferred := [Event.ClientClose]
      match storage.NewReader u.Bucket u.Object with
      | .error err =>
        { result := .error (.read { URL := url, Err := err }),
          calls := [.NewClient true, .NewReader u.Bucket u.Object false] ++ deferred }
      | .ok rc =>
        let deferred := Event.ReaderClose :: deferred
        match ioutilReadAll rc with
        | (_, some err) =>
          { result := .error (.read { URL := url, Err := err }),
            calls := [.NewClient true, .NewReader u.Bucket u.Object true, .ReadAll false] ++
              deferred }
        | (bytes, none) =>
          { result := .ok bytes,
            calls := [.NewClient true, .NewReader u.Bucket u.Object true, .ReadAll true] ++
              deferred }

/-! ### Open handles along a list of calls -/

/-- Whether a call is a `NewReader` that returned a reader. -/
def Event.opensReader : Event → Bool
  | .NewReader _ _ true => true
  | _ => false

/-- Which of the two handles are open. -/
structure Handles where
  client : Bool
  reader : Bool
  deriving DecidableEq, Repr

/-- The effect of one call on the open handles; `none` when the call is out of
order: a second client, a reader without a client or beside an open reader, a
read or a close on a reader that is not open, a close on a client that is not
open or whose reader is still open. -/
def Handles.step (h : Handles) : Event → Option Handles
  | .NewClient ok => if h.client then none else some { h with client := ok }
  | .NewReader _ _ ok =>
    if h.client ∧ ¬ h.reader then some { h with reader := ok } else none
  | .ReadAll _ => if h.reader then some h else none
  | .ReaderClose => if h.reader then some { h with reader := false } else none
  | .ClientClose =>
    if h.client ∧ ¬ h.reader then some { h with client := false } else none

/-- The open handles after a list of calls, `none` when a call is out of order. -/
def Handles.run : Handles → List Event → Option Handles
  | h, [] => some h
  | h, e :: es =>
    match h.step e with
    | none => none
    | some h1 => Handles.run h1 es

/-- What Go's `net/url.Parse` returns on the inputs of `TestReadFile_error` in
`gsutil_test.go`; as in `gsurl.parseURLSample`, every other input is answered
with an error of the table's own. -/
def parseURLReadTests (s : GoString) : Except String gsurl.NetURL :=
  if s = lit "file://bad-scheme" then
    .ok { Scheme := lit "file", Host := lit "bad-scheme", Path := [] }
  else if s = lit "://a" then .error "parse \"://a\": missing protocol scheme"
  else if s = lit "gs://a" then .ok { Scheme := lit "gs", Host := lit "a", Path := [] }
  else if s = lit "gs://bucket/object" then
    .ok { Scheme := lit "gs", Host := lit "bucket", Path := lit "/object" }
  else .error "input outside the table"

/-- A storage service for concrete runs: a client is returned, the object
`object` of the bucket `bucket` holds the one byte `a` (as the file of
`TestReadFile` does), and no other object can be opened. -/
def storageSample : Storage String where
  NewClient := none
  NewReader := fun bucket object =>
    if bucket = lit "bucket" ∧ object = lit "object" then
      .ok { chunks := [lit "a"], err := none }
    else .error "storage: object doesn\x27t exist"

end gsutil

/-! ## Facts about decoding -/

theorem two_pow_le_lor_left {n a : Nat} (b : Nat) (h : 2 ^ n ≤ a) : 2 ^ n ≤ a ||| b := by
  obtain ⟨i, hi, hbit⟩ := Nat.ge_two_pow_implies_high_bit_true h
  have hor : (a ||| b).testBit i = true := by simp [hbit]
  exact le_trans (Nat.pow_le_pow_right (by decide) hi) (Nat.testBit_implies_ge hor)

theorem two_pow_le_lor_right {n b : Nat} (a : Nat) (h : 2 ^ n ≤ b) : 2 ^ n ≤ a ||| b := by
  obtain ⟨i, hi, hbit⟩ := Nat.ge_two_pow_implies_high_bit_true h
  have hor : (a ||| b).testBit i = true := by simp [hbit]
  exact le_trans (Nat.pow_le_pow_right (by decide) hi) (Nat.testBit_implies_ge hor)

set_option maxRecDepth 100000 in
theorem lead2_high : ∀ b : Byte, 0xC2 ≤ b.val → runeSize b ≤ 2 →
    2 ^ 7 ≤ (b.val &&& 0x1F) <<< 6 := by decide!

set_option maxRecDepth 100000 in
theorem lead3_high : ∀ b : Byte, ¬ runeSize b ≤ 2 → runeSize b ≤ 3 → b.val ≠ 0xE0 →
    2 ^ 7 ≤ (b.val &&& 0x0F) <<< 12 := by decide!

set_option maxRecDepth 100000 in
theorem lead4_high : ∀ b : Byte, ¬ runeSize b ≤ 3 → b.val ≠ 0xF0 → b.val ≤ 0xF4 →
    2 ^ 7 ≤ (b.val &&& 0x07) <<< 18 := by decide!

set_option maxRecDepth 100000 in
theorem second3_high : ∀ b : Byte, 0xA0 ≤ b.val → b.val ≤ 0xBF →
    2 ^ 7 ≤ (b.val &&& 0x3F) <<< 6 := by decide!

set_option maxRecDepth 100000 in
theorem second4_high : ∀ b : Byte, 0x90 ≤ b.val → b.val ≤ 0xBF →
    2 ^ 7 ≤ (b.val &&& 0x3F) <<< 12 := by decide!

theorem acceptHi_le (b : Byte) : acceptHi b ≤ 0xBF := by
  unfold acceptHi; split_ifs <;> decide

/-- An ASCII byte decodes to itself and takes one byte. -/
theorem decodeRune_ascii (s0 : Byte) (rest : GoString) (h : s0.val < 0x80) :
    decodeRune (s0 :: rest) = (s0.val, 1) := by
  simp [decodeRune, h]

/-- A byte outside ASCII never starts a rune inside ASCII. -/
theorem decodeRune_high (s0 : Byte) (rest : GoString) (h : 0x80 ≤ s0.val) :
    2 ^ 7 ≤ (decodeRune (s0 :: rest)).1 := by
  have h0 : ¬ s0.val < 0x80 := by omega
  have hE : (2 : Nat) ^ 7 ≤ RuneError := by decide
  by_cases hr : s0.val < 0xC2 ∨ 0xF4 < s0.val
  · simpa [decodeRune, h0, hr] using hE
  have hr' : 0xC2 ≤ s0.val ∧ s0.val ≤ 0xF4 := by omega
  have hhi := acceptHi_le s0
  match rest with
  | [] => simpa [decodeRune, h0, hr] using hE
  | s1 :: rest1 =>
    by_cases h1 : s1.val < acceptLo s0 ∨ acceptHi s0 < s1.val
    · simpa [decodeRune, h0, hr, h1] using hE
    by_cases hs2 : runeSize s0 ≤ 2
    · simp only [decodeRune, h0, hr, h1, hs2, if_false, if_true]
      exact two_pow_le_lor_left _ (lead2_high s0 hr'.1 hs2)
    match rest1 with
    | [] => simpa [decodeRune, h0, hr, h1, hs2] using hE
    | s2 :: rest2 =>
      by_cases h2 : s2.val < 0x80 ∨ 0xBF < s2.val
      · simpa [decodeRune, h0, hr, h1, hs2, h2] using hE
      by_cases hs3 : runeSize s0 ≤ 3
      · simp only [decodeRune, h0, hr, h1, hs2, h2, hs3, if_false, if_true]
        apply two_pow_le_lor_left
        by_cases hE0 : s0.val = 0xE0
        · apply two_pow_le_lor_right
          have hlo : acceptLo s0 = 0xA0 := by simp [acceptLo, hE0]
          exact second3_high s1 (by omega) (by omega)
        · exact two_pow_le_lor_left _ (lead3_high s0 hs2 hs3 hE0)
      match rest2 with
      | [] => simpa [decodeRune, h0, hr, h1, hs2, h2, hs3] using hE
      | s3 :: rest3 =>
        by_cases h3 : s3.val < 0x80 ∨ 0xBF < s3.val
        · simpa [decodeRune, h0, hr, h1, hs2, h2, hs3, h3] using hE
        simp only [decodeRune, h0, hr, h1, hs2, h2, hs3, h3, if_false]
        apply two_pow_le_lor_left
        apply two_pow_le_lor_left
        by_cases hF0 : s0.val = 0xF0
        · apply two_pow_le_lor_right
          have hlo : acceptLo s0 = 0x90 := by simp [acceptLo, hF0]
          exact second4_high s1 (by omega) (by omega)
        · exact two_pow_le_lor_left _ (lead4_high s0 hs3 hF0 hr'.2)


theorem toRunes_cons_ascii (b : Byte) (rest : GoString) (h : b.val < 0x80) :
    toRunes (b :: rest) = b.val :: toRunes rest := by
  simp [toRunes, runesFrom, decodeRune_ascii b rest h]

theorem runesFrom_length_le (k : Nat) (s : GoString) : (runesFrom k s).length ≤ s.length := by
  induction s generalizing k with
  | nil => simp [runesFrom]
  | cons b rest ih =>
    cases k with
    | zero =>
      simp only [runesFrom, List.length_cons]
      exact Nat.succ_le_succ (ih _)
    | succ k =>
      simp only [runesFrom, List.length_cons]
      exact Nat.le_succ_of_le (ih k)

theorem toRunes_length_le (s : GoString) : (toRunes s).length ≤ s.length :=
  runesFrom_length_le 0 s

theorem toRunes_ne_nil (s : GoString) (h : s ≠ []) : toRunes s ≠ [] := by
  cases s with
  | nil => exact absurd rfl h
  | cons b rest => simp [toRunes, runesFrom]

/-- When every character of `s` lies in a class of ASCII characters, the runes
of `s` are its bytes. -/
theorem toRunes_eq_map_of_forall (P : Nat → Prop) (hP : ∀ r, P r → r < 0x80)
    (s : GoString) (h : ∀ r ∈ toRunes s, P r) : toRunes s = s.map (fun b => b.val) := by
  induction s with
  | nil => rfl
  | cons b rest ih =>
    have hb : b.val < 0x80 := by
      by_contra hc
      have hhigh := decodeRune_high b rest (by omega)
      have hmem : (decodeRune (b :: rest)).1 ∈ toRunes (b :: rest) := by
        simp [toRunes, runesFrom]
      have hlow := hP _ (h _ hmem)
      exact absurd (Nat.lt_of_lt_of_le hlow hhigh) (Nat.lt_irrefl _)
    rw [toRunes_cons_ascii b rest hb] at h ⊢
    rw [List.map_cons, ih (fun r hr => h r (List.mem_cons_of_mem _ hr))]

theorem toRunes_eq_map_of_ascii (s : GoString) (h : ∀ b ∈ s, b.val < 0x80) :
    toRunes s = s.map (fun b => b.val) := by
  induction s with
  | nil => rfl
  | cons b rest ih =>
    rw [toRunes_cons_ascii b rest (h b (List.mem_cons_self _ _)), List.map_cons,
      ih (fun c hc => h c (List.mem_cons_of_mem _ hc))]

/-! ## Facts about `strings.Index` and the cut of `bqurl.Parse` -/

theorem stringsIndex_append (p r : GoString) (c : Byte) (h : c ∉ p) :
    stringsIndex (p ++ c :: r) c = p.length := by
  induction p with
  | nil => simp [stringsIndex]
  | cons b rest ih =>
    have hb : b ≠ c := fun e => h (e ▸ List.mem_cons_self _ _)
    have hrest : c ∉ rest := fun e => h (List.mem_cons_of_mem _ e)
    have hpos : (rest.length : Int) > -1 := by omega
    rw [List.cons_append, stringsIndex, if_neg hb, ih hrest, if_pos hpos, List.length_cons]
    push_cast
    rfl

theorem stringsIndex_of_not_mem (s : GoString) (c : Byte) (h : c ∉ s) :
    stringsIndex s c = -1 := by
  induction s with
  | nil => rfl
  | cons b rest ih =>
    have hb : b ≠ c := fun e => h (e ▸ List.mem_cons_self _ _)
    have hrest : c ∉ rest := fun e => h (List.mem_cons_of_mem _ e)
    simp [stringsIndex, hb, ih hrest]

namespace bqurl

theorem cut_append (p r : GoString) (c : Byte) (h : c ∉ p) : cut (p ++ c :: r) c = (p, r) := by
  have hi := stringsIndex_append p r c h
  have hpos : stringsIndex (p ++ c :: r) c > -1 := by rw [hi]; omega
  rw [cut, if_pos hpos, hi]
  simp

theorem cut_of_not_mem (u : GoString) (c : Byte) (h : c ∉ u) : cut u c = ([], u) := by
  simp [cut, stringsIndex_of_not_mem u c h]

/-! ## The validators of `bqurl` against the field rules -/

theorem projectChar_lt (r : Nat) (h : ProjectChar r) : r < 0x80 := by
  simp only [ProjectChar, IsLower, IsDigit, Char.reduceToNat] at h
  omega

theorem wordChar_lt (r : Nat) (h : WordChar r) : r < 0x80 := by
  simp only [WordChar, IsLower, IsUpper, IsDigit, Char.reduceToNat] at h
  omega

theorem projectLoop_eq_none_iff (rs : List Nat) :
    projectLoop rs = none ↔ ∀ r ∈ rs, ProjectChar r := by
  induction rs with
  | nil => simp [projectLoop]
  | cons r rs ih =>
    rw [List.forall_mem_cons, ← ih, projectLoop]
    unfold ProjectChar IsLower IsDigit
    split_ifs with h1 h2 h3 <;> simp only [Char.reduceToNat, ge_iff_le] at * <;>
      first
      | exact ⟨fun h => ⟨by omega, h⟩, fun h => h.2⟩
      | (simp only [reduceCtorEq, false_iff, not_and]; intro h; omega)

theorem wordLoop_eq_none_iff (msg : String) (rs : List Nat) :
    wordLoop msg rs = none ↔ ∀ r ∈ rs, WordChar r := by
  induction rs with
  | nil => simp [wordLoop]
  | cons r rs ih =>
    rw [List.forall_mem_cons, ← ih, wordLoop]
    unfold WordChar IsLower IsUpper IsDigit
    split_ifs with h1 h2 h3 h4 <;> simp only [Char.reduceToNat, ge_iff_le] at * <;>
      first
      | exact ⟨fun h => ⟨by omega, h⟩, fun h => h.2⟩
      | (simp only [reduceCtorEq, false_iff, not_and]; intro h; omega)

/-- A string all of whose characters are allowed in a project-id has as many
characters as bytes. -/
theorem length_toRunes_of_projectChar (p : GoString) (h : ∀ r ∈ toRunes p, ProjectChar r) :
    (toRunes p).length = p.length := by
  rw [toRunes_eq_map_of_forall ProjectChar projectChar_lt p h, List.length_map]

theorem length_toRunes_of_wordChar (w : GoString) (h : ∀ r ∈ toRunes w, WordChar r) :
    (toRunes w).length = w.length := by
  rw [toRunes_eq_map_of_forall WordChar wordChar_lt w h, List.length_map]

theorem getD_zero_eq (rs : List Nat) (r : Nat) (h : rs.head? = some r) : rs.getD 0 0 = r := by
  cases rs with
  | nil => simp at h
  | cons a rs => simpa using h

theorem getD_last_eq (rs : List Nat) (h : rs ≠ []) :
    rs.getLast? = some (rs.getD (rs.length - 1) 0) := by
  rw [List.getLast?_eq_getElem?, List.getD_eq_getElem?_getD]
  have hlen : rs.length - 1 < rs.length := by
    have := List.length_pos.mpr h
    omega
  rw [List.getElem?_eq_getElem hlen]
  rfl

theorem validateProjectID_eq_none_iff (p : GoString) :
    validateProjectID p = none ↔ p = [] ∨ ValidProjectID p := by
  by_cases hp : p = []
  · simp [validateProjectID, hp]
  have hne := toRunes_ne_nil p hp
  obtain ⟨r0, rs, hrs⟩ := List.exists_cons_of_ne_nil hne
  have hhead : (toRunes p).head? = some r0 := by rw [hrs]; rfl
  have hfirst := getD_zero_eq _ _ hhead
  have hlast := getD_last_eq _ hne
  simp only [validateProjectID, hp, if_false, false_or]
  constructor
  · intro h
    split_ifs at h with h6 h30 hf hl
    have hall := (projectLoop_eq_none_iff _).mp h
    have hlen := length_toRunes_of_projectChar p hall
    refine ⟨by omega, by omega, hall, ⟨r0, hhead, ?_⟩, ?_⟩
    · rw [hfirst] at hf
      simp only [IsLower, Char.reduceToNat] at hf ⊢
      omega
    · rw [hlast]
      intro he
      exact hl (Option.some.inj he)
  · rintro ⟨h6, h30, hall, ⟨r, hr, hlow⟩, hl⟩
    have hlen := length_toRunes_of_projectChar p hall
    have hr0 : r = r0 := by
      rw [hhead] at hr
      exact (Option.some.inj hr).symm
    subst hr0
    simp only [IsLower, Char.reduceToNat] at hlow
    have hf : ¬ ((toRunes p).getD 0 0 < 'a'.toNat ∨ (toRunes p).getD 0 0 > 'z'.toNat) := by
      rw [hfirst]; simp only [Char.reduceToNat]; omega
    have hl' : ¬ (toRunes p).getD ((toRunes p).length - 1) 0 = '-'.toNat := by
      intro he
      exact hl (by rw [hlast, he])
    have h6' : ¬ p.length < 6 := by omega
    have h30' : ¬ p.length > 30 := by omega
    simp only [h6', h30', hf, hl', if_false]
    exact (projectLoop_eq_none_iff _).mpr hall

theorem validateTableID_eq_none_iff (t : GoString) :
    validateTableID t = none ↔ ValidWordID t := by
  simp only [validateTableID, ValidWordID]
  constructor
  · intro h
    split_ifs at h with h1 h2
    have hall := (wordLoop_eq_none_iff _ _).mp h
    have hlen := length_toRunes_of_wordChar t hall
    exact ⟨by omega, by omega, hall⟩
  · rintro ⟨h1, h2, hall⟩
    have hlen := length_toRunes_of_wordChar t hall
    have h1' : ¬ t.length < 1 := by omega
    have h2' : ¬ t.length > 1024 := by omega
    simp only [h1', h2', if_false]
    exact (wordLoop_eq_none_iff _ _).mpr hall

theorem validateDatasetID_eq_none_iff (d : GoString) :
    validateDatasetID d = none ↔ d = [] ∨ ValidWordID d := by
  by_cases hd : d = []
  · simp [validateDatasetID, hd]
  have hpos : 1 ≤ d.length := List.length_pos.mpr hd
  simp only [validateDatasetID, ValidWordID, hd, if_false, false_or]
  constructor
  · intro h
    split_ifs at h with h2
    have hall := (wordLoop_eq_none_iff _ _).mp h
    have hlen := length_toRunes_of_wordChar d hall
    exact ⟨by omega, by omega, hall⟩
  · rintro ⟨h1, h2, hall⟩
    have hlen := length_toRunes_of_wordChar d hall
    have h2' : ¬ d.length > 1024 := by omega
    simp only [h2', if_false]
    exact (wordLoop_eq_none_iff _ _).mpr hall

/-! ## `bqurl.Parse` -/

theorem lit_colon : lit ":" = [byteOf ':'] := by decide

theorem lit_dot : lit "." = [byteOf '.'] := by decide

/-- What `Parse` returns on a non-empty input, in terms of the three fields
that the two cuts produce. -/
theorem Parse_of_ne_nil (u : GoString) (hu : u ≠ []) :
    Parse u =
      match validateProjectID (cut u (byteOf ':')).1 with
      | some err => .error err
      | none =>
        match validateDatasetID (cut (cut u (byteOf ':')).2 (byteOf '.')).1 with
        | some err => .error err
        | none =>
          match validateTableID (cut (cut u (byteOf ':')).2 (byteOf '.')).2 with
          | some err => .error err
          | none =>
            .ok { ProjectID := (cut u (byteOf ':')).1,
                  DatasetID := (cut (cut u (byteOf ':')).2 (byteOf '.')).1,
                  TableID := (cut (cut u (byteOf ':')).2 (byteOf '.')).2 } := by
  simp only [Parse, hu, if_false]

theorem Parse_eq_ok_iff (u : GoString) (url : URL) :
    Parse u = .ok url ↔
      u ≠ [] ∧ validateProjectID (cut u (byteOf ':')).1 = none ∧
        validateDatasetID (cut (cut u (byteOf ':')).2 (byteOf '.')).1 = none ∧
        validateTableID (cut (cut u (byteOf ':')).2 (byteOf '.')).2 = none ∧
        url = { ProjectID := (cut u (byteOf ':')).1,
                DatasetID := (cut (cut u (byteOf ':')).2 (byteOf '.')).1,
                TableID := (cut (cut u (byteOf ':')).2 (byteOf '.')).2 } := by
  by_cases hu : u = []
  · simp [Parse, hu]
  rw [Parse_of_ne_nil u hu]
  cases hp : validateProjectID (cut u (byteOf ':')).1 with
  | some e => simp
  | none =>
    cases hd : validateDatasetID (cut (cut u (byteOf ':')).2 (byteOf '.')).1 with
    | some e => simp
    | none =>
      cases ht : validateTableID (cut (cut u (byteOf ':')).2 (byteOf '.')).2 with
      | some e => simp
      | none =>
        simp only [hu, ne_eq, not_false_eq_true, true_and, Except.ok.injEq]
        exact eq_comm

/-- A project-id that `validateProjectID` rejects makes `Parse` fail. -/
theorem Parse_error_of_project (u : GoString) (hu : u ≠ [])
    (h : validateProjectID (cut u (byteOf ':')).1 ≠ none) : ∃ e, Parse u = .error e := by
  rw [Parse_of_ne_nil u hu]
  cases hp : validateProjectID (cut u (byteOf ':')).1 with
  | some e => exact ⟨e, rfl⟩
  | none => exact absurd hp h

theorem mem_toRunes_of_forall (P : Nat → Prop) (hP : ∀ r, P r → r < 0x80) (s : GoString)
    (h : ∀ r ∈ toRunes s, P r) (b : Byte) (hb : b ∈ s) : P b.val := by
  rw [toRunes_eq_map_of_forall P hP s h] at h
  exact h _ (List.mem_map_of_mem _ hb)

theorem colon_not_mem_of_projectChar (p : GoString) (h : ∀ r ∈ toRunes p, ProjectChar r) :
    byteOf ':' ∉ p := by
  intro hmem
  have := mem_toRunes_of_forall ProjectChar projectChar_lt p h _ hmem
  revert this
  decide

theorem sep_not_mem_of_wordChar (w : GoString) (h : ∀ r ∈ toRunes w, WordChar r) :
    byteOf ':' ∉ w ∧ byteOf '.' ∉ w := by
  constructor <;> intro hmem <;>
    have := mem_toRunes_of_forall WordChar wordChar_lt w h _ hmem <;>
    revert this <;> decide

end bqurl

open bqurl

/-! ## The claims on `bqurl.Parse` -/

/-- C1: for every valid project-id `p`, dataset-id `d` and table-id `t`,
`bqurl.Parse(p + ":" + d + "." + t)` returns no error and the URL with
`ProjectID = p`, `DatasetID = d`, `TableID = t`. -/
theorem bqurl_parse_qualified (p d t : GoString) (hp : ValidProjectID p)
    (hd : ValidWordID d) (ht : ValidWordID t) :
    bqurl.Parse (p ++ lit ":" ++ d ++ lit "." ++ t) =
      .ok { ProjectID := p, DatasetID := d, TableID := t } := by
  have hpc := colon_not_mem_of_projectChar p hp.2.2.1
  have hdc := (sep_not_mem_of_wordChar d hd.2.2).2
  have hu : p ++ lit ":" ++ d ++ lit "." ++ t = p ++ byteOf ':' :: (d ++ byteOf '.' :: t) := by
    simp [lit_colon, lit_dot]
  have hne : p ++ byteOf ':' :: (d ++ byteOf '.' :: t) ≠ [] := by simp
  rw [hu, Parse_eq_ok_iff]
  rw [cut_append p _ _ hpc]
  simp only []
  rw [cut_append d _ _ hdc]
  exact ⟨hne, (validateProjectID_eq_none_iff p).mpr (Or.inr hp),
    (validateDatasetID_eq_none_iff d).mpr (Or.inr hd),
    (validateTableID_eq_none_iff t).mpr ht, rfl⟩

/-- C1 at the input of the test `basic url`, `a-1234:b.c`. -/
theorem bqurl_parse_qualified_witness :
    bqurl.Parse (lit "a-1234" ++ lit ":" ++ lit "b" ++ lit "." ++ lit "c") =
      .ok { ProjectID := lit "a-1234", DatasetID := lit "b", TableID := lit "c" } :=
  bqurl_parse_qualified (lit "a-1234") (lit "b") (lit "c") (by decide!) (by decide!) (by decide!)

/-- C2: whenever `bqurl.Parse` returns a URL, its fields satisfy the field
rules: `ProjectID` is empty or a valid project-id, `DatasetID` is empty or a
valid dataset-id, `TableID` is a valid table-id. -/
theorem bqurl_parse_fields_valid (u : GoString) (url : bqurl.URL)
    (h : bqurl.Parse u = .ok url) :
    (url.ProjectID = [] ∨ ValidProjectID url.ProjectID) ∧
      (url.DatasetID = [] ∨ ValidWordID url.DatasetID) ∧ ValidWordID url.TableID := by
  obtain ⟨_, hp, hd, ht, hurl⟩ := (Parse_eq_ok_iff u url).mp h
  subst hurl
  exact ⟨(validateProjectID_eq_none_iff _).mp hp, (validateDatasetID_eq_none_iff _).mp hd,
    (validateTableID_eq_none_iff _).mp ht⟩

/-- C2 at the input `a-1234:b.c`. -/
theorem bqurl_parse_fields_valid_witness :
    (lit "a-1234" = [] ∨ ValidProjectID (lit "a-1234")) ∧
      (lit "b" = [] ∨ ValidWordID (lit "b")) ∧ ValidWordID (lit "c") :=
  bqurl_parse_fields_valid (lit "a-1234:b.c")
    { ProjectID := lit "a-1234", DatasetID := lit "b", TableID := lit "c" } (by decide)

/-- C9, with the empty project-id left out: for every non-empty string `p` that
contains no `:` and is shorter than 6 or longer than 30 characters (counted in
runes, or in bytes as `len` does), and every remainder `r`,
`bqurl.Parse(p + ":" + r)` returns an error. -/
theorem bqurl_parse_project_length (p r : GoString) (hne : p ≠ [])
    (hcolon : byteOf ':' ∉ p)
    (hlen : ((toRunes p).length < 6 ∨ 30 < (toRunes p).length) ∨
      (p.length < 6 ∨ 30 < p.length)) :
    ∃ e, bqurl.Parse (p ++ lit ":" ++ r) = .error e := by
  have hu : p ++ lit ":" ++ r = p ++ byteOf ':' :: r := by simp [lit_colon]
  rw [hu]
  apply Parse_error_of_project _ (by simp)
  rw [cut_append p r _ hcolon]
  intro hnone
  rcases (validateProjectID_eq_none_iff p).mp hnone with hnil | hvalid
  · exact hne hnil
  · have hbytes := length_toRunes_of_projectChar p hvalid.2.2.1
    have h6 := hvalid.1
    have h30 := hvalid.2.1
    omega

/-- C9 (amended) at the inputs of the tests `project id is too short`,
`aaaaa:b.c`, and `project id is too long`, 31 times `a` followed by `:b.c`. -/
theorem bqurl_parse_project_length_witness :
    (∃ e, bqurl.Parse (lit "aaaaa" ++ lit ":" ++ lit "b.c") = .error e) ∧
      (∃ e, bqurl.Parse (List.replicate 31 (byteOf 'a') ++ lit ":" ++ lit "b.c") = .error e) :=
  ⟨bqurl_parse_project_length (lit "aaaaa") (lit "b.c") (by decide) (by decide)
      (Or.inl (Or.inl (by decide))),
    bqurl_parse_project_length (List.replicate 31 (byteOf 'a')) (lit "b.c") (by decide)
      (by decide) (Or.inr (Or.inr (by decide)))⟩

/-- C9 as stated fails at the empty project-id: `""` has fewer than 6 characters
and no `:`, and `bqurl.Parse(":b.c")` returns the URL with `ProjectID = ""`,
`DatasetID = "b"`, `TableID = "c"` and no error. -/
theorem bqurl_parse_empty_project_accepted :
    (toRunes (lit "")).length < 6 ∧ (lit "").length < 6 ∧ byteOf ':' ∉ lit "" ∧
      bqurl.Parse (lit "" ++ lit ":" ++ lit "b.c") =
        .ok { ProjectID := lit "", DatasetID := lit "b", TableID := lit "c" } ∧
      ¬ ∃ e, bqurl.Parse (lit "" ++ lit ":" ++ lit "b.c") = .error e := by
  have hok : bqurl.Parse (lit "" ++ lit ":" ++ lit "b.c") =
      .ok { ProjectID := lit "", DatasetID := lit "b", TableID := lit "c" } := by decide
  refine ⟨by decide, by decide, by decide, hok, ?_⟩
  rintro ⟨e, he⟩
  rw [hok] at he
  cases he

/-- C10: for every non-empty string `p` without `:` that contains a character
outside lowercase letters, digits and hyphen, or whose first character is a
digit or a hyphen, or whose last character is a hyphen, and every remainder `r`,
`bqurl.Parse(p + ":" + r)` returns an error. -/
theorem bqurl_parse_project_chars (p r : GoString) (hne : p ≠ [])
    (hcolon : byteOf ':' ∉ p)
    (hbad : (∃ c ∈ toRunes p, ¬ ProjectChar c) ∨
      (∃ c, (toRunes p).head? = some c ∧ (IsDigit c ∨ c = '-'.toNat)) ∨
      (toRunes p).getLast? = some '-'.toNat) :
    ∃ e, bqurl.Parse (p ++ lit ":" ++ r) = .error e := by
  have hu : p ++ lit ":" ++ r = p ++ byteOf ':' :: r := by simp [lit_colon]
  rw [hu]
  apply Parse_error_of_project _ (by simp)
  rw [cut_append p r _ hcolon]
  intro hnone
  rcases (validateProjectID_eq_none_iff p).mp hnone with hnil | hvalid
  · exact hne hnil
  obtain ⟨_, _, hall, ⟨c0, hc0, hlow⟩, hlast⟩ := hvalid
  rcases hbad with ⟨c, hc, hnot⟩ | ⟨c, hc, hfirst⟩ | hhyphen
  · exact hnot (hall c hc)
  · rw [hc0] at hc
    have hcc : c0 = c := Option.some.inj hc
    subst hcc
    simp only [IsLower, IsDigit, Char.reduceToNat] at hlow hfirst
    omega
  · exact hlast hhyphen

/-- C10 at the inputs of the tests `aaaaaA:b.c` (a character that is not
allowed), `1aaaaa:b.c` (first character a digit) and `aaaaa-:b.c` (last character
a hyphen). -/
theorem bqurl_parse_project_chars_witness :
    (∃ e, bqurl.Parse (lit "aaaaaA" ++ lit ":" ++ lit "b.c") = .error e) ∧
      (∃ e, bqurl.Parse (lit "1aaaaa" ++ lit ":" ++ lit "b.c") = .error e) ∧
      (∃ e, bqurl.Parse (lit "aaaaa-" ++ lit ":" ++ lit "b.c") = .error e) :=
  ⟨bqurl_parse_project_chars (lit "aaaaaA") (lit "b.c") (by decide) (by decide)
      (Or.inl ⟨'A'.toNat, by decide, by decide⟩),
    bqurl_parse_project_chars (lit "1aaaaa") (lit "b.c") (by decide) (by decide)
      (Or.inr (Or.inl ⟨'1'.toNat, by decide, Or.inl (by decide)⟩)),
    bqurl_parse_project_chars (lit "aaaaa-") (lit "b.c") (by decide) (by decide)
      (Or.inr (Or.inr (by decide)))⟩

/-! ## Facts about `strings.TrimLeft` and `gsurl.Parse` -/

theorem stringsTrimLeft_head (s : GoString) (c : Byte) :
    (stringsTrimLeft s c).head? ≠ some c := by
  induction s with
  | nil => simp [stringsTrimLeft]
  | cons b rest ih =>
    by_cases hb : b = c
    · simpa [stringsTrimLeft, hb] using ih
    · simp [stringsTrimLeft, hb]

theorem stringsTrimLeft_eq_nil_iff (s : GoString) (c : Byte) :
    stringsTrimLeft s c = [] ↔ ∀ b ∈ s, b = c := by
  induction s with
  | nil => simp [stringsTrimLeft]
  | cons b rest ih =>
    by_cases hb : b = c
    · simp [stringsTrimLeft, hb, ih]
    · simp [stringsTrimLeft, hb]

theorem stringsTrimLeft_prefix (s : GoString) (c : Byte) :
    ∃ k, s = List.replicate k c ++ stringsTrimLeft s c := by
  induction s with
  | nil => exact ⟨0, rfl⟩
  | cons b rest ih =>
    by_cases hb : b = c
    · obtain ⟨k, hk⟩ := ih
      refine ⟨k + 1, ?_⟩
      simp only [stringsTrimLeft, hb, if_true, List.replicate_succ, List.cons_append]
      rw [← hk]
    · exact ⟨0, by simp [stringsTrimLeft, hb]⟩

theorem stringsTrimLeft_of_head (s : GoString) (c : Byte) (h : s.head? ≠ some c) :
    stringsTrimLeft s c = s := by
  cases s with
  | nil => rfl
  | cons b rest =>
    have hb : b ≠ c := fun e => h (by simp [e])
    simp [stringsTrimLeft, hb]

namespace gsurl

/-- What `Parse` returns once the URI parser has returned the URL `nu`. -/
theorem Parse_of_parsed {ε : Type} (parseURL : GoString → Except ε NetURL) (u : GoString)
    (nu : NetURL) (h : parseURL u = .ok nu) :
    Parse parseURL u =
      if nu.Scheme ≠ lit "gs" then
        .error (.new
          "Invalid protocal specified, the only protocal that is permitted is \x27gs\x27.")
      else if nu.Host = [] then .error (.new "Bucket name is required")
      else if stringsTrimLeft nu.Path (byteOf '/') = [] then
        .error (.new "Object name is required")
      else .ok { Bucket := nu.Host, Object := stringsTrimLeft nu.Path (byteOf '/') } := by
  simp only [Parse, h]

theorem Parse_ok_parsed {ε : Type} (parseURL : GoString → Except ε NetURL) (u : GoString)
    (url : URL) (h : Parse parseURL u = .ok url) :
    ∃ nu, parseURL u = .ok nu ∧ nu.Scheme = lit "gs" ∧ nu.Host ≠ [] ∧
      stringsTrimLeft nu.Path (byteOf '/') ≠ [] ∧
      url = { Bucket := nu.Host, Object := stringsTrimLeft nu.Path (byteOf '/') } := by
  cases hp : parseURL u with
  | error e => simp [Parse, hp] at h
  | ok nu =>
    rw [Parse_of_parsed parseURL u nu hp] at h
    split_ifs at h with h1 h2 h3
    refine ⟨nu, rfl, not_not.mp h1, h2, h3, ?_⟩
    exact (Except.ok.inj h).symm

end gsurl

open gsurl

/-! ## The claims on `gsurl.Parse` -/

/-- C3: whenever `gsurl.Parse` returns a URL, `Bucket` is non-empty, `Object` is
non-empty and `Object` does not start with a forward slash, whatever the URI
parser is. -/
theorem gsurl_parse_fields_nonempty {ε : Type} (parseURL : GoString → Except ε NetURL)
    (u : GoString) (url : gsurl.URL) (h : gsurl.Parse parseURL u = .ok url) :
    url.Bucket ≠ [] ∧ url.Object ≠ [] ∧ url.Object.head? ≠ some (byteOf '/') := by
  obtain ⟨nu, _, _, hhost, hobj, hurl⟩ := Parse_ok_parsed parseURL u url h
  subst hurl
  exact ⟨hhost, hobj, stringsTrimLeft_head _ _⟩

/-- C3 at the input of the test `Basic URL`, `gs://aaa/b`. -/
theorem gsurl_parse_fields_nonempty_witness :
    lit "aaa" ≠ [] ∧ lit "b" ≠ [] ∧ (lit "b").head? ≠ some (byteOf '/') :=
  gsurl_parse_fields_nonempty parseURLSample (lit "gs://aaa/b")
    { Bucket := lit "aaa", Object := lit "b" } (by decide)

/-- C4: when the URI parser returns a URL with scheme `gs`, a non-empty host and
a path that is not made only of forward slashes, `gsurl.Parse` returns no error
and the URL whose `Bucket` is the host and whose `Object` is the path without
its leading forward slashes: the path is some number of slashes followed by
`Object`, and `Object` does not start with a slash. -/
theorem gsurl_parse_bucket_object {ε : Type} (parseURL : GoString → Except ε NetURL)
    (u : GoString) (nu : NetURL) (hparse : parseURL u = .ok nu)
    (hscheme : nu.Scheme = lit "gs") (hhost : nu.Host ≠ [])
    (hpath : ∃ b ∈ nu.Path, b ≠ byteOf '/') :
    ∃ obj k, gsurl.Parse parseURL u = .ok { Bucket := nu.Host, Object := obj } ∧
      nu.Path = List.replicate k (byteOf '/') ++ obj ∧ obj.head? ≠ some (byteOf '/') := by
  obtain ⟨k, hk⟩ := stringsTrimLeft_prefix nu.Path (byteOf '/')
  refine ⟨stringsTrimLeft nu.Path (byteOf '/'), k, ?_, hk, stringsTrimLeft_head _ _⟩
  have hobj : stringsTrimLeft nu.Path (byteOf '/') ≠ [] := by
    intro he
    obtain ⟨b, hb, hne⟩ := hpath
    exact hne ((stringsTrimLeft_eq_nil_iff _ _).mp he b hb)
  rw [Parse_of_parsed parseURL u nu hparse]
  simp [hscheme, hhost, hobj]

/-- C4 at the inputs of the tests, `gs://aaa/b` and `gs://bucket/object`. -/
theorem gsurl_parse_bucket_object_witness :
    (∃ obj k, gsurl.Parse parseURLSample (lit "gs://aaa/b") =
        .ok { Bucket := lit "aaa", Object := obj } ∧
      lit "/b" = List.replicate k (byteOf '/') ++ obj ∧ obj.head? ≠ some (byteOf '/')) ∧
    (∃ obj k, gsurl.Parse parseURLSample (lit "gs://bucket/object") =
        .ok { Bucket := lit "bucket", Object := obj } ∧
      lit "/object" = List.replicate k (byteOf '/') ++ obj ∧
      obj.head? ≠ some (byteOf '/')) :=
  ⟨gsurl_parse_bucket_object parseURLSample (lit "gs://aaa/b")
      { Scheme := lit "gs", Host := lit "aaa", Path := lit "/b" } (by decide) (by decide)
      (by decide) ⟨byteOf 'b', by decide, by decide⟩,
    gsurl_parse_bucket_object parseURLSample (lit "gs://bucket/object")
      { Scheme := lit "gs", Host := lit "bucket", Path := lit "/object" } (by decide)
      (by decide) (by decide) ⟨byteOf 'o', by decide, by decide⟩⟩

/-- C6: when the scheme of the parsed URI is not exactly `gs` (the empty scheme
included), `gsurl.Parse` returns no URL and the invalid-scheme error, whatever
the host and the path are. -/
theorem gsurl_parse_invalid_scheme {ε : Type} (parseURL : GoString → Except ε NetURL)
    (u : GoString) (nu : NetURL) (hparse : parseURL u = .ok nu)
    (hscheme : nu.Scheme ≠ lit "gs") :
    gsurl.Parse parseURL u = .error (.new
      "Invalid protocal specified, the only protocal that is permitted is \x27gs\x27.") := by
  rw [Parse_of_parsed parseURL u nu hparse, if_pos hscheme]

/-- C6 at the inputs of the tests, `http://a/b` and `//a/b`. -/
theorem gsurl_parse_invalid_scheme_witness :
    gsurl.Parse parseURLSample (lit "http://a/b") = .error (.new
        "Invalid protocal specified, the only protocal that is permitted is \x27gs\x27.") ∧
      gsurl.Parse parseURLSample (lit "//a/b") = .error (.new
        "Invalid protocal specified, the only protocal that is permitted is \x27gs\x27.") :=
  ⟨gsurl_parse_invalid_scheme parseURLSample (lit "http://a/b")
      { Scheme := lit "http", Host := lit "a", Path := lit "/b" } (by decide) (by decide),
    gsurl_parse_invalid_scheme parseURLSample (lit "//a/b")
      { Scheme := [], Host := lit "a", Path := lit "/b" } (by decide) (by decide)⟩

/-- C7: for an input parsed with scheme `gs`, an empty host gives the error
`Bucket name is required`; a non-empty host with a path that is empty or made
only of forward slashes gives the error `Object name is required`. -/
theorem gsurl_parse_missing_part {ε : Type} (parseURL : GoString → Except ε NetURL)
    (u : GoString) (nu : NetURL) (hparse : parseURL u = .ok nu)
    (hscheme : nu.Scheme = lit "gs") :
    (nu.Host = [] → gsurl.Parse parseURL u = .error (.new "Bucket name is required")) ∧
      (nu.Host ≠ [] → (∀ b ∈ nu.Path, b = byteOf '/') →
        gsurl.Parse parseURL u = .error (.new "Object name is required")) := by
  rw [Parse_of_parsed parseURL u nu hparse]
  constructor
  · intro hhost
    simp [hscheme, hhost]
  · intro hhost hpath
    have hobj := (stringsTrimLeft_eq_nil_iff nu.Path (byteOf '/')).mpr hpath
    simp [hscheme, hhost, hobj]

/-- C7 at the inputs of the tests: `gs:///b` lacks the bucket, `gs://a` and
`gs://a/` lack the object. -/
theorem gsurl_parse_missing_part_witness :
    gsurl.Parse parseURLSample (lit "gs:///b") = .error (.new "Bucket name is required") ∧
      gsurl.Parse parseURLSample (lit "gs://a") = .error (.new "Object name is required") ∧
      gsurl.Parse parseURLSample (lit "gs://a/") = .error (.new "Object name is required") :=
  ⟨(gsurl_parse_missing_part parseURLSample (lit "gs:///b")
      { Scheme := lit "gs", Host := [], Path := lit "/b" } (by decide) (by decide)).1 rfl,
    (gsurl_parse_missing_part parseURLSample (lit "gs://a")
      { Scheme := lit "gs", Host := lit "a", Path := [] } (by decide) (by decide)).2
      (by decide!) (by decide!),
    (gsurl_parse_missing_part parseURLSample (lit "gs://a/")
      { Scheme := lit "gs", Host := lit "a", Path := lit "/" } (by decide) (by decide)).2
      (by decide!) (by decide!)⟩

/-- C8: when the URI parser returns an error, `gsurl.Parse` returns no URL and
that same error, which is none of the errors that `gsurl.Parse` creates itself. -/
theorem gsurl_parse_uri_error {ε : Type} (parseURL : GoString → Except ε NetURL)
    (u : GoString) (err : ε) (hparse : parseURL u = .error err) :
    gsurl.Parse parseURL u = .error (.uri err) ∧
      ∀ msg : String, (gsurl.Error.uri err : gsurl.Error ε) ≠ .new msg := by
  constructor
  · simp only [gsurl.Parse, hparse]
  · intro msg he
    cases he

/-- C8 at the input of the test `Invalid URL`, the bare `%`. -/
theorem gsurl_parse_uri_error_witness :
    gsurl.Parse parseURLSample (lit "%") =
        .error (.uri "parse \"%\": invalid URL escape \"%\"") ∧
      ∀ msg : String,
        (gsurl.Error.uri "parse \"%\": invalid URL escape \"%\"" : gsurl.Error String) ≠
          .new msg :=
  gsurl_parse_uri_error parseURLSample (lit "%") "parse \"%\": invalid URL escape \"%\""
    (by decide)

/-- C5, amended: when `gsurl.Parse` succeeds on some input with `Bucket = b` and
`Object = o`, and the URI parser parses `"gs://" + b + "/" + o` into scheme `gs`,
host `b` and path `"/" + o`, then `gsurl.Parse` of that string succeeds with the
same `Bucket` and `Object`. -/
theorem gsurl_roundtrip {ε : Type} (parseURL : GoString → Except ε NetURL)
    (u b o : GoString) (h : gsurl.Parse parseURL u = .ok { Bucket := b, Object := o })
    (nu : NetURL) (hparse : parseURL (lit "gs://" ++ b ++ lit "/" ++ o) = .ok nu)
    (hscheme : nu.Scheme = lit "gs") (hhost : nu.Host = b) (hpath : nu.Path = lit "/" ++ o) :
    gsurl.Parse parseURL (lit "gs://" ++ b ++ lit "/" ++ o) =
      .ok { Bucket := b, Object := o } := by
  obtain ⟨nu0, _, _, hhost0, hobj0, hurl⟩ := Parse_ok_parsed parseURL u _ h
  have hb : b ≠ [] := by rw [(gsurl.URL.mk.inj hurl).1]; exact hhost0
  have ho : o ≠ [] := by rw [(gsurl.URL.mk.inj hurl).2]; exact hobj0
  have hhead : o.head? ≠ some (byteOf '/') := by
    rw [(gsurl.URL.mk.inj hurl).2]; exact stringsTrimLeft_head _ _
  have hslash : lit "/" = [byteOf '/'] := by decide
  have htrim : stringsTrimLeft nu.Path (byteOf '/') = o := by
    rw [hpath, hslash]
    simp only [List.singleton_append, stringsTrimLeft, if_true]
    exact stringsTrimLeft_of_head o _ hhead
  rw [Parse_of_parsed parseURL _ nu hparse, htrim, hhost]
  simp [hscheme, hb, ho]

/-- C5 (amended) at the input of the test `Basic URL`: `gs://aaa/b` parses to
`Bucket = "aaa"`, `Object = "b"`, and so does the string put together again. -/
theorem gsurl_roundtrip_witness :
    gsurl.Parse parseURLSample (lit "gs://" ++ lit "aaa" ++ lit "/" ++ lit "b") =
      .ok { Bucket := lit "aaa", Object := lit "b" } :=
  gsurl_roundtrip parseURLSample (lit "gs://aaa/b") (lit "aaa") (lit "b") (by decide)
    { Scheme := lit "gs", Host := lit "aaa", Path := lit "/b" } (by decide) (by decide)
    (by decide) (by decide)

/-- C5 as stated fails with `net/url`: `gs://a/b%3Fc` parses to `Bucket = "a"`,
`Object = "b?c"`, and the string put together again, `gs://a/b?c`, parses to
`Object = "b"`, because the URI parser takes what follows `?` as the query. -/
theorem gsurl_roundtrip_fails :
    gsurl.Parse parseURLSample (lit "gs://a/b%3Fc") =
        .ok { Bucket := lit "a", Object := lit "b?c" } ∧
      gsurl.Parse parseURLSample (lit "gs://" ++ lit "a" ++ lit "/" ++ lit "b?c") =
        .ok { Bucket := lit "a", Object := lit "b" } ∧
      gsurl.Parse parseURLSample (lit "gs://" ++ lit "a" ++ lit "/" ++ lit "b?c") ≠
        .ok { Bucket := lit "a", Object := lit "b?c" } := by
  decide

/-! ## More on the cuts of `bqurl.Parse` -/

theorem toRunes_nil : toRunes [] = [] := rfl

theorem ne_nil_of_validWordID (w : GoString) (h : ValidWordID w) : w ≠ [] := by
  intro he
  have h1 := h.1
  rw [he, toRunes_nil] at h1
  simp at h1

/-- The cut at `c`: either `c` does not occur and nothing is cut off, or the
string is cut at the first `c`. -/
theorem cut_cases (u : GoString) (c : Byte) :
    (c ∉ u ∧ bqurl.cut u c = ([], u)) ∨
      ∃ pre post, u = pre ++ c :: post ∧ c ∉ pre ∧ bqurl.cut u c = (pre, post) := by
  by_cases h : c ∈ u
  · right
    obtain ⟨pre, post, hu, hpre⟩ := List.eq_append_cons_of_mem h
    exact ⟨pre, post, hu, hpre, by rw [hu]; exact cut_append pre post c hpre⟩
  · exact Or.inl ⟨h, cut_of_not_mem u c h⟩

theorem parse_ok_or_error (u : GoString) :
    (∃ url, bqurl.Parse u = .ok url) ∨ ∃ e, bqurl.Parse u = .error e := by
  cases h : bqurl.Parse u with
  | ok url => exact Or.inl ⟨url, rfl⟩
  | error e => exact Or.inr ⟨e, rfl⟩

/-! ## Further claims on `bqurl.Parse` -/

/-- C11: for every valid table-id `t`, `bqurl.Parse(t)` returns no error and the
URL with empty `ProjectID` and `DatasetID` and `TableID = t`; for every valid
dataset-id `d` as well, `bqurl.Parse(d + "." + t)` returns no error and the URL
with empty `ProjectID`, `DatasetID = d` and `TableID = t`. -/
theorem bqurl_parse_unqualified (t : GoString) (ht : ValidWordID t) :
    bqurl.Parse t = .ok { ProjectID := [], DatasetID := [], TableID := t } ∧
      ∀ d : GoString, ValidWordID d →
        bqurl.Parse (d ++ lit "." ++ t) =
          .ok { ProjectID := [], DatasetID := d, TableID := t } := by
  have htsep := sep_not_mem_of_wordChar t ht.2.2
  have htv := (validateTableID_eq_none_iff t).mpr ht
  have hpv : validateProjectID [] = none := (validateProjectID_eq_none_iff []).mpr (Or.inl rfl)
  constructor
  · rw [Parse_eq_ok_iff, cut_of_not_mem t _ htsep.1]
    simp only []
    rw [cut_of_not_mem t _ htsep.2]
    exact ⟨ne_nil_of_validWordID t ht, hpv,
      (validateDatasetID_eq_none_iff []).mpr (Or.inl rfl), htv, rfl⟩
  · intro d hd
    have hdsep := sep_not_mem_of_wordChar d hd.2.2
    have hu : d ++ lit "." ++ t = d ++ byteOf '.' :: t := by simp [lit_dot]
    have hcolon : byteOf ':' ∉ d ++ byteOf '.' :: t := by
      intro hmem
      rcases List.mem_append.mp hmem with h1 | h1
      · exact hdsep.1 h1
      · rcases List.mem_cons.mp h1 with h2 | h2
        · revert h2; decide
        · exact htsep.1 h2
    rw [hu, Parse_eq_ok_iff, cut_of_not_mem _ _ hcolon]
    simp only []
    rw [cut_append d t _ hdsep.2]
    exact ⟨by simp, hpv, (validateDatasetID_eq_none_iff d).mpr (Or.inr hd), htv, rfl⟩

/-- C11 at the inputs of the tests `only table id is provided`, `a`, and `only
dataset and table id's are provided`, `a.b`. -/
theorem bqurl_parse_unqualified_witness :
    bqurl.Parse (lit "a") = .ok { ProjectID := [], DatasetID := [], TableID := lit "a" } ∧
      bqurl.Parse (lit "a" ++ lit "." ++ lit "b") =
        .ok { ProjectID := [], DatasetID := lit "a", TableID := lit "b" } :=
  ⟨(bqurl_parse_unqualified (lit "a") (by decide!)).1,
    (bqurl_parse_unqualified (lit "b") (by decide!)).2 (lit "a") (by decide!)⟩

/-! ## The errors of the validators -/

theorem projectLoop_some (rs : List Nat) (e : String) (h : projectLoop rs = some e) :
    e = "project_id may only contain lowercase letters, digits, or hyphens" ∧
      ∃ c ∈ rs, ¬ ProjectChar c := by
  induction rs with
  | nil => simp [projectLoop] at h
  | cons r rs ih =>
    rw [projectLoop] at h
    split_ifs at h with h1 h2 h3
    · obtain ⟨he, c, hc, hn⟩ := ih h
      exact ⟨he, c, List.mem_cons_of_mem _ hc, hn⟩
    · obtain ⟨he, c, hc, hn⟩ := ih h
      exact ⟨he, c, List.mem_cons_of_mem _ hc, hn⟩
    · obtain ⟨he, c, hc, hn⟩ := ih h
      exact ⟨he, c, List.mem_cons_of_mem _ hc, hn⟩
    · refine ⟨(Option.some.inj h).symm, r, List.mem_cons_self _ _, ?_⟩
      unfold ProjectChar IsLower IsDigit
      simp only [Char.reduceToNat, ge_iff_le] at *
      omega

theorem wordLoop_some (msg : String) (rs : List Nat) (e : String)
    (h : wordLoop msg rs = some e) : e = msg ∧ ∃ c ∈ rs, ¬ WordChar c := by
  induction rs with
  | nil => simp [wordLoop] at h
  | cons r rs ih =>
    rw [wordLoop] at h
    split_ifs at h with h1 h2 h3 h4
    · obtain ⟨he, c, hc, hn⟩ := ih h
      exact ⟨he, c, List.mem_cons_of_mem _ hc, hn⟩
    · obtain ⟨he, c, hc, hn⟩ := ih h
      exact ⟨he, c, List.mem_cons_of_mem _ hc, hn⟩
    · obtain ⟨he, c, hc, hn⟩ := ih h
      exact ⟨he, c, List.mem_cons_of_mem _ hc, hn⟩
    · obtain ⟨he, c, hc, hn⟩ := ih h
      exact ⟨he, c, List.mem_cons_of_mem _ hc, hn⟩
    · refine ⟨(Option.some.inj h).symm, r, List.mem_cons_self _ _, ?_⟩
      unfold WordChar IsLower IsUpper IsDigit
      simp only [Char.reduceToNat, ge_iff_le] at *
      omega

/-- Each error of `validateProjectID` comes with the test that produced it; the
two length tests count bytes, as `len` does. -/
theorem validateProjectID_some (p : GoString) (e : String)
    (h : validateProjectID p = some e) :
    p ≠ [] ∧
      ((e = "project_id must be at least 6 characters" ∧ p.length < 6) ∨
        (e = "project_id must be no more then 30 characters" ∧ 30 < p.length) ∨
        (e = "project_id must start with a lowercase letter" ∧
          ∃ c, (toRunes p).head? = some c ∧ ¬ IsLower c) ∨
        (e = "project_id must not end with a hyphen" ∧
          (toRunes p).getLast? = some '-'.toNat) ∨
        (e = "project_id may only contain lowercase letters, digits, or hyphens" ∧
          ∃ c ∈ toRunes p, ¬ ProjectChar c)) := by
  by_cases hp : p = []
  · simp [validateProjectID, hp] at h
  refine ⟨hp, ?_⟩
  have hne := toRunes_ne_nil p hp
  obtain ⟨r0, rs, hrs⟩ := List.exists_cons_of_ne_nil hne
  have hhead : (toRunes p).head? = some r0 := by rw [hrs]; rfl
  have hfirst := getD_zero_eq _ _ hhead
  have hlast := getD_last_eq _ hne
  simp only [validateProjectID, hp, if_false] at h
  split_ifs at h with h6 h30 hf hl
  · exact Or.inl ⟨(Option.some.inj h).symm, h6⟩
  · exact Or.inr (Or.inl ⟨(Option.some.inj h).symm, h30⟩)
  · refine Or.inr (Or.inr (Or.inl ⟨(Option.some.inj h).symm, r0, hhead, ?_⟩))
    rw [hfirst] at hf
    unfold IsLower
    simp only [Char.reduceToNat] at hf ⊢
    omega
  · refine Or.inr (Or.inr (Or.inr (Or.inl ⟨(Option.some.inj h).symm, ?_⟩)))
    rw [hlast, hl]
  · exact Or.inr (Or.inr (Or.inr (Or.inr (projectLoop_some _ _ h))))

theorem validateDatasetID_some (d : GoString) (e : String)
    (h : validateDatasetID d = some e) :
    d ≠ [] ∧
      ((e = "dataset_id must be no more then 1024 characters" ∧ 1024 < d.length) ∨
        (e = "dataset_id may only contain lowercase letters, uppercase letters, digits, or underscores" ∧
          ∃ c ∈ toRunes d, ¬ WordChar c)) := by
  by_cases hd : d = []
  · simp [validateDatasetID, hd] at h
  refine ⟨hd, ?_⟩
  simp only [validateDatasetID, hd, if_false] at h
  split_ifs at h with h1
  · exact Or.inl ⟨(Option.some.inj h).symm, h1⟩
  · exact Or.inr (wordLoop_some _ _ _ h)

theorem validateTableID_some (t : GoString) (e : String)
    (h : validateTableID t = some e) :
    (e = "table_id must be at least 1 character" ∧ t.length < 1) ∨
      (e = "table_id must be no more then 1024 characters" ∧ 1024 < t.length) ∨
      (e = "table_id may only contain lowercase letters, uppercase letters, digits, or underscores" ∧
        ∃ c ∈ toRunes t, ¬ WordChar c) := by
  simp only [validateTableID] at h
  split_ifs at h with h1 h2
  · exact Or.inl ⟨(Option.some.inj h).symm, h1⟩
  · exact Or.inr (Or.inl ⟨(Option.some.inj h).symm, h2⟩)
  · exact Or.inr (Or.inr (wordLoop_some _ _ _ h))

/-- An error of `Parse` on a non-empty input is the error of one of the three
validators on its field. -/
theorem parse_error_source (u : GoString) (hu : u ≠ []) (e : String)
    (h : bqurl.Parse u = .error e) :
    validateProjectID (cut u (byteOf ':')).1 = some e ∨
      validateDatasetID (cut (cut u (byteOf ':')).2 (byteOf '.')).1 = some e ∨
      validateTableID (cut (cut u (byteOf ':')).2 (byteOf '.')).2 = some e := by
  rw [Parse_of_ne_nil u hu] at h
  cases hp : validateProjectID (cut u (byteOf ':')).1 with
  | some e1 =>
    rw [hp] at h
    exact Or.inl (congrArg some (Except.error.inj h))
  | none =>
    rw [hp] at h
    cases hd : validateDatasetID (cut (cut u (byteOf ':')).2 (byteOf '.')).1 with
    | some e1 =>
      rw [hd] at h
      exact Or.inr (Or.inl (congrArg some (Except.error.inj h)))
    | none =>
      rw [hd] at h
      cases ht : validateTableID (cut (cut u (byteOf ':')).2 (byteOf '.')).2 with
      | some e1 =>
        rw [ht] at h
        exact Or.inr (Or.inr (congrArg some (Except.error.inj h)))
      | none =>
        rw [ht] at h
        cases h

/-- C12: `bqurl.Parse("")` returns no URL and the error `url must not be blank`,
and on a non-empty input `bqurl.Parse` never returns that error. -/
theorem bqurl_parse_blank :
    bqurl.Parse (lit "") = .error "url must not be blank" ∧
      ∀ u : GoString, u ≠ [] → bqurl.Parse u ≠ .error "url must not be blank" := by
  refine ⟨by decide, ?_⟩
  intro u hu h
  rcases parse_error_source u hu _ h with hp | hd | ht
  · obtain ⟨_, hcase⟩ := validateProjectID_some _ _ hp
    rcases hcase with ⟨he, _⟩ | ⟨he, _⟩ | ⟨he, _⟩ | ⟨he, _⟩ | ⟨he, _⟩ <;>
      exact absurd he (by decide)
  · obtain ⟨_, hcase⟩ := validateDatasetID_some _ _ hd
    rcases hcase with ⟨he, _⟩ | ⟨he, _⟩ <;> exact absurd he (by decide)
  · rcases validateTableID_some _ _ ht with ⟨he, _⟩ | ⟨he, _⟩ | ⟨he, _⟩ <;>
      exact absurd he (by decide)

/-- C12 at the non-empty inputs `a`, which parses, and `:`, which fails with
another error. -/
theorem bqurl_parse_blank_witness :
    bqurl.Parse (lit "a") ≠ .error "url must not be blank" ∧
      bqurl.Parse (lit ":") ≠ .error "url must not be blank" ∧
      bqurl.Parse (lit ":") = .error "table_id must be at least 1 character" :=
  ⟨bqurl_parse_blank.2 (lit "a") (by decide), bqurl_parse_blank.2 (lit ":") (by decide),
    by decide⟩

/-- C13: the table-id is always required.  An input whose table-id component is
empty, is longer than 1024 characters (counted in runes, or in bytes as `len`
does) or contains a character other than a letter, a digit or an underscore
makes `bqurl.Parse` return an error, whatever the other two fields are. -/
theorem bqurl_parse_table_required (u : GoString)
    (hbad : tablePart u = [] ∨
      (1024 < (toRunes (tablePart u)).length ∨ 1024 < (tablePart u).length) ∨
      ∃ c ∈ toRunes (tablePart u), ¬ WordChar c) :
    ∃ e, bqurl.Parse u = .error e := by
  rcases parse_ok_or_error u with ⟨url, hok⟩ | herr
  · exfalso
    obtain ⟨_, _, _, ht, _⟩ := (Parse_eq_ok_iff u url).mp hok
    have hvalid : ValidWordID (tablePart u) := (validateTableID_eq_none_iff _).mp ht
    have hbytes := length_toRunes_of_wordChar _ hvalid.2.2
    rcases hbad with hnil | hlong | ⟨c, hc, hn⟩
    · exact ne_nil_of_validWordID _ hvalid hnil
    · have h2 := hvalid.2.1
      omega
    · exact hn (hvalid.2.2 c hc)
  · exact herr

set_option maxRecDepth 100000 in
/-- C13 at the inputs of the tests: `aaaaaa:b.` (no table-id), `aaaaaa:b.c!`
(a character that is not allowed) and `aaaaaa:b.` followed by 1025 times `c`. -/
theorem bqurl_parse_table_required_witness :
    (∃ e, bqurl.Parse (lit "aaaaaa:b.") = .error e) ∧
      (∃ e, bqurl.Parse (lit "aaaaaa:b.c!") = .error e) ∧
      (∃ e, bqurl.Parse (lit "aaaaaa:b." ++ List.replicate 1025 (byteOf 'c')) = .error e) :=
  ⟨bqurl_parse_table_required (lit "aaaaaa:b.") (Or.inl (by decide)),
    bqurl_parse_table_required (lit "aaaaaa:b.c!")
      (Or.inr (Or.inr ⟨'!'.toNat, by decide, by decide⟩)),
    bqurl_parse_table_required (lit "aaaaaa:b." ++ List.replicate 1025 (byteOf 'c'))
      (Or.inr (Or.inl (Or.inr (by decide!))))⟩

/-- C18: an explicitly empty optional field is treated like an absent one.  For
a non-empty `r` without `:`, `bqurl.Parse(":" + r)` returns what `bqurl.Parse(r)`
returns; for a non-empty `t` without `:` and `.`, `bqurl.Parse("." + t)` returns
what `bqurl.Parse(t)` returns, and `":." + t` parses to empty `ProjectID` and
`DatasetID` and `TableID = t` when `t` is a valid table-id. -/
theorem bqurl_parse_empty_optional :
    (∀ r : GoString, r ≠ [] → byteOf ':' ∉ r →
        bqurl.Parse (lit ":" ++ r) = bqurl.Parse r) ∧
      (∀ t : GoString, t ≠ [] → byteOf ':' ∉ t → byteOf '.' ∉ t →
        bqurl.Parse (lit "." ++ t) = bqurl.Parse t ∧
          (ValidWordID t →
            bqurl.Parse (lit ":." ++ t) =
              .ok { ProjectID := [], DatasetID := [], TableID := t })) := by
  have hcd : byteOf ':' ≠ byteOf '.' := by decide
  constructor
  · intro r hr hcolon
    have hu : lit ":" ++ r = [] ++ byteOf ':' :: r := by simp [lit_colon]
    rw [hu, Parse_of_ne_nil _ (by simp), Parse_of_ne_nil r hr,
      cut_append [] r _ (List.not_mem_nil _), cut_of_not_mem r _ hcolon]
  · intro t ht hcolon hdot
    have hcolon1 : byteOf ':' ∉ byteOf '.' :: t := by
      intro hmem
      rcases List.mem_cons.mp hmem with h1 | h1
      · exact hcd h1
      · exact hcolon h1
    constructor
    · have hu : lit "." ++ t = byteOf '.' :: t := by simp [lit_dot]
      rw [hu, Parse_of_ne_nil _ (by simp), Parse_of_ne_nil t ht,
        cut_of_not_mem _ _ hcolon1, cut_of_not_mem t _ hcolon]
      simp only []
      rw [show byteOf '.' :: t = [] ++ byteOf '.' :: t from rfl,
        cut_append [] t _ (List.not_mem_nil _), cut_of_not_mem t _ hdot]
    · intro hvalid
      have hlit : lit ":." = [byteOf ':', byteOf '.'] := by decide
      have hu : lit ":." ++ t = [] ++ byteOf ':' :: ([] ++ byteOf '.' :: t) := by simp [hlit]
      rw [hu, Parse_eq_ok_iff, cut_append [] _ _ (List.not_mem_nil _)]
      simp only []
      rw [cut_append [] t _ (List.not_mem_nil _)]
      exact ⟨by simp, (validateProjectID_eq_none_iff []).mpr (Or.inl rfl),
        (validateDatasetID_eq_none_iff []).mpr (Or.inl rfl),
        (validateTableID_eq_none_iff t).mpr hvalid, rfl⟩

/-- C18 at `r = "b.c"` and `t = "c"`. -/
theorem bqurl_parse_empty_optional_witness :
    bqurl.Parse (lit ":" ++ lit "b.c") = bqurl.Parse (lit "b.c") ∧
      bqurl.Parse (lit "." ++ lit "c") = bqurl.Parse (lit "c") ∧
      bqurl.Parse (lit ":." ++ lit "c") =
        .ok { ProjectID := [], DatasetID := [], TableID := lit "c" } :=
  ⟨bqurl_parse_empty_optional.1 (lit "b.c") (by decide) (by decide),
    (bqurl_parse_empty_optional.2 (lit "c") (by decide) (by decide) (by decide)).1,
    (bqurl_parse_empty_optional.2 (lit "c") (by decide) (by decide) (by decide)).2
      (by decide!)⟩

/-! ## The shape of an accepted input -/

theorem sep_not_mem_of_projectChar (p : GoString) (h : ∀ r ∈ toRunes p, ProjectChar r) :
    byteOf ':' ∉ p ∧ byteOf '.' ∉ p := by
  constructor <;> intro hmem <;>
    have := mem_toRunes_of_forall ProjectChar projectChar_lt p h _ hmem <;>
    revert this <;> decide

theorem sep_not_mem_of_project_ok (p : GoString) (h : validateProjectID p = none) :
    byteOf ':' ∉ p ∧ byteOf '.' ∉ p := by
  rcases (validateProjectID_eq_none_iff p).mp h with hnil | hvalid
  · simp [hnil]
  · exact sep_not_mem_of_projectChar p hvalid.2.2.1

theorem sep_not_mem_of_dataset_ok (d : GoString) (h : validateDatasetID d = none) :
    byteOf ':' ∉ d ∧ byteOf '.' ∉ d := by
  rcases (validateDatasetID_eq_none_iff d).mp h with hnil | hvalid
  · simp [hnil]
  · exact sep_not_mem_of_wordChar d hvalid.2.2

theorem sep_not_mem_of_table_ok (t : GoString) (h : validateTableID t = none) :
    byteOf ':' ∉ t ∧ byteOf '.' ∉ t :=
  sep_not_mem_of_wordChar t ((validateTableID_eq_none_iff t).mp h).2.2

/-- A string with a single `c` is split at `c` in one way only. -/
theorem split_unique (c : Byte) (a b a1 b1 : GoString) (h : a ++ c :: b = a1 ++ c :: b1)
    (ha : c ∉ a) (hb : c ∉ b) : a1 = a := by
  rcases List.append_eq_append_iff.mp h with ⟨x, hx, hcb⟩ | ⟨x, hx, hcb⟩
  · cases x with
    | nil => simpa using hx
    | cons y ys =>
      exfalso
      rw [List.cons_append] at hcb
      have hb' : b = ys ++ c :: b1 := (List.cons.inj hcb).2
      exact hb (by rw [hb']; simp)
  · cases x with
    | nil => simpa using hx.symm
    | cons y ys =>
      exfalso
      rw [List.cons_append] at hcb
      have hy : c = y := (List.cons.inj hcb).1
      exact ha (by rw [hx, ← hy]; simp)

/-- C19: when `bqurl.Parse(u)` succeeds with the fields `p`, `d`, `t`, the input
has at most one `:` and at most one `.`, no `.` stands before the `:`, none of
the fields contains `:` or `.`, and `u` is one of `t`, `d + "." + t`,
`p + ":" + t`, `p + ":" + d + "." + t`.  So an input with two or more `:`, with
two or more `.` after the first `:`, or with a `.` before the first `:` is
rejected. -/
theorem bqurl_parse_shape (u : GoString) :
    (∀ p d t : GoString,
        bqurl.Parse u = .ok { ProjectID := p, DatasetID := d, TableID := t } →
          u.count (byteOf ':') ≤ 1 ∧ u.count (byteOf '.') ≤ 1 ∧
          (∀ pre post : GoString, u = pre ++ byteOf ':' :: post → byteOf '.' ∉ pre) ∧
          (byteOf ':' ∉ p ∧ byteOf '.' ∉ p) ∧ (byteOf ':' ∉ d ∧ byteOf '.' ∉ d) ∧
          (byteOf ':' ∉ t ∧ byteOf '.' ∉ t) ∧
          (u = t ∨ u = d ++ lit "." ++ t ∨ u = p ++ lit ":" ++ t ∨
            u = p ++ lit ":" ++ d ++ lit "." ++ t)) ∧
      ((2 ≤ u.count (byteOf ':') ∨
          ∃ pre post : GoString, u = pre ++ byteOf ':' :: post ∧ byteOf ':' ∉ pre ∧
            (2 ≤ post.count (byteOf '.') ∨ byteOf '.' ∈ pre)) →
        ∃ e, bqurl.Parse u = .error e) := by
  have hcd : (byteOf ':' == byteOf '.') = false := by decide
  have hdc : (byteOf '.' == byteOf ':') = false := by decide
  have hshape : ∀ p d t : GoString,
      bqurl.Parse u = .ok { ProjectID := p, DatasetID := d, TableID := t } →
        u.count (byteOf ':') ≤ 1 ∧ u.count (byteOf '.') ≤ 1 ∧
        (∀ pre post : GoString, u = pre ++ byteOf ':' :: post → byteOf '.' ∉ pre) ∧
        (byteOf ':' ∉ p ∧ byteOf '.' ∉ p) ∧ (byteOf ':' ∉ d ∧ byteOf '.' ∉ d) ∧
        (byteOf ':' ∉ t ∧ byteOf '.' ∉ t) ∧
        (u = t ∨ u = d ++ lit "." ++ t ∨ u = p ++ lit ":" ++ t ∨
          u = p ++ lit ":" ++ d ++ lit "." ++ t) := by
    intro p d t hok
    obtain ⟨_, hpv, hdv, htv, hurl⟩ := (Parse_eq_ok_iff u _).mp hok
    obtain ⟨hp, hd, ht⟩ := bqurl.URL.mk.inj hurl
    rw [← hp] at hpv
    rw [← hd] at hdv
    rw [← ht] at htv
    have hps := sep_not_mem_of_project_ok p hpv
    have hds := sep_not_mem_of_dataset_ok d hdv
    have hts := sep_not_mem_of_table_ok t htv
    have cp := List.count_eq_zero_of_not_mem hps.1
    have cp' := List.count_eq_zero_of_not_mem hps.2
    have cd := List.count_eq_zero_of_not_mem hds.1
    have cd' := List.count_eq_zero_of_not_mem hds.2
    have ct := List.count_eq_zero_of_not_mem hts.1
    have ct' := List.count_eq_zero_of_not_mem hts.2
    refine ⟨?_, ?_, ?_, hps, hds, hts, ?_⟩
    all_goals
      rcases cut_cases u (byteOf ':') with ⟨hnc, hc1⟩ | ⟨pre, post, hu, hpre, hc1⟩ <;>
      rw [hc1] at hp hd ht <;> simp only [] at hp hd ht <;>
      rcases cut_cases _ (byteOf '.') with ⟨hnd, hc2⟩ | ⟨pre2, post2, hu2, hpre2, hc2⟩ <;>
      rw [hc2] at hd ht <;> simp only [] at hd ht <;> subst hp hd ht
    -- at most one colon
    · simp [ct]
    · rw [hu2]; simp [List.count_append, List.count_cons, cd, ct, hdc]
    · rw [hu]; simp [List.count_append, List.count_cons, cp, ct]
    · rw [hu, hu2]; simp [List.count_append, List.count_cons, cp, cd, ct, hdc]
    -- at most one dot
    · simp [ct']
    · rw [hu2]; simp [List.count_append, List.count_cons, cd', ct']
    · rw [hu]; simp [List.count_append, List.count_cons, cp', ct', hcd]
    · rw [hu, hu2]; simp [List.count_append, List.count_cons, cp', cd', ct', hcd]
    -- no dot before the colon
    · intro a b hab
      exact absurd (by rw [hab]; simp) hnc
    · intro a b hab
      exact absurd (by rw [hab]; simp) hnc
    · intro a b hab
      rw [hu] at hab
      rw [split_unique _ _ _ _ _ hab hps.1 hts.1]
      exact hps.2
    · intro a b hab
      have hpost : byteOf ':' ∉ d ++ byteOf '.' :: t := by
        simp only [List.mem_append, List.mem_cons, not_or]
        exact ⟨hds.1, by decide, hts.1⟩
      rw [hu, hu2] at hab
      rw [split_unique _ _ _ _ _ hab hps.1 hpost]
      exact hps.2
    -- the four forms
    · exact Or.inl rfl
    · exact Or.inr (Or.inl (by rw [hu2]; simp [lit_dot]))
    · exact Or.inr (Or.inr (Or.inl (by rw [hu]; simp [lit_colon])))
    · exact Or.inr (Or.inr (Or.inr (by rw [hu, hu2]; simp [lit_colon, lit_dot])))
  refine ⟨hshape, ?_⟩
  intro hbad
  rcases parse_ok_or_error u with ⟨⟨p, d, t⟩, hok⟩ | herr
  · exfalso
    obtain ⟨h1, h2, h3, -⟩ := hshape p d t hok
    rcases hbad with hcount | ⟨pre, post, hu, -, hdots | hdot⟩
    · omega
    · rw [hu, List.count_append, List.count_cons] at h2
      omega
    · exact h3 pre post hu hdot
  · exact herr

/-- C19 at the accepted input `a-1234:b.c` and at the rejected inputs
`aaaaaa:b:c`, `aaaaaa:b.c.d` and `aaa.aaa:b.c`. -/
theorem bqurl_parse_shape_witness :
    (lit "a-1234:b.c").count (byteOf ':') ≤ 1 ∧
      (∃ e, bqurl.Parse (lit "aaaaaa:b:c") = .error e) ∧
      (∃ e, bqurl.Parse (lit "aaaaaa:b.c.d") = .error e) ∧
      (∃ e, bqurl.Parse (lit "aaa.aaa:b.c") = .error e) :=
  ⟨((bqurl_parse_shape (lit "a-1234:b.c")).1 (lit "a-1234") (lit "b") (lit "c")
      (by decide)).1,
    (bqurl_parse_shape (lit "aaaaaa:b:c")).2 (Or.inl (by decide)),
    (bqurl_parse_shape (lit "aaaaaa:b.c.d")).2
      (Or.inr ⟨lit "aaaaaa", lit "b.c.d", by decide, by decide, Or.inl (by decide)⟩),
    (bqurl_parse_shape (lit "aaa.aaa:b.c")).2
      (Or.inr ⟨lit "aaa.aaa", lit "b.c", by decide, by decide, Or.inr (by decide)⟩)⟩

/-! ## The claims on `gsutil.ReadFile` -/

open gsutil

/-- C14: when `gsurl.Parse` fails on `url`, `gsutil.ReadFile` returns no bytes and
an `InvalidURLError`, never a `ReadError`, whose `URL` is `url` and whose `Err` is
the error of the parser; its message is `"invalid url " + url + " "` followed by
the message of that error; and no call to the storage SDK is made. -/
theorem gsutil_readfile_invalid_url {ε σ : Type}
    (parseURL : GoString → Except ε gsurl.NetURL) (storage : Storage σ)
    (uriText : ε → GoString) (url : GoString) (err : gsurl.Error ε)
    (h : gsurl.Parse parseURL url = .error err) :
    (ReadFile parseURL storage url).result =
        .error (.invalidURL { URL := url, Err := err }) ∧
      (∀ e : ReadError σ, (ReadFile parseURL storage url).result ≠ .error (.read e)) ∧
      InvalidURLError.Error uriText { URL := url, Err := err } =
        lit "invalid url " ++ url ++ lit " " ++ errorText uriText err ∧
      (ReadFile parseURL storage url).calls = [] := by
  have hres : (ReadFile parseURL storage url).result =
      .error (.invalidURL { URL := url, Err := err }) := by
    simp only [ReadFile, h]
  refine ⟨hres, ?_, rfl, ?_⟩
  · intro e he
    rw [hres] at he
    cases he
  · simp only [ReadFile, h]

/-- C14 at the inputs of `TestReadFile_error`: `file://bad-scheme`, `://a` and
`gs://a`, the last with its message. -/
theorem gsutil_readfile_invalid_url_witness :
    (ReadFile parseURLReadTests storageSample (lit "file://bad-scheme")).calls = [] ∧
      (ReadFile parseURLReadTests storageSample (lit "://a")).result =
        .error (.invalidURL
          { URL := lit "://a", Err := .uri "parse \"://a\": missing protocol scheme" }) ∧
      (ReadFile parseURLReadTests storageSample (lit "gs://a")).result =
        .error (.invalidURL { URL := lit "gs://a", Err := .new "Object name is required" }) ∧
      InvalidURLError.Error lit
          { URL := lit "gs://a", Err := (.new "Object name is required" : gsurl.Error String) } =
        lit "invalid url gs://a Object name is required" :=
  ⟨(gsutil_readfile_invalid_url parseURLReadTests storageSample lit (lit "file://bad-scheme")
      (.new "Invalid protocal specified, the only protocal that is permitted is \x27gs\x27.")
      (by decide)).2.2.2,
    (gsutil_readfile_invalid_url parseURLReadTests storageSample lit (lit "://a")
      (.uri "parse \"://a\": missing protocol scheme") (by decide)).1,
    (gsutil_readfile_invalid_url parseURLReadTests storageSample lit (lit "gs://a")
      (.new "Object name is required") (by decide)).1,
    by decide⟩

/-- C15: when `gsurl.Parse` succeeds on `url` with the URL `u`: an error of
`storage.NewClient`, of `NewReader` for `u.Bucket` and `u.Object`, or of
`ioutil.ReadAll` makes `gsutil.ReadFile` return no bytes and the `ReadError` with
`URL = url` and that error as `Err`; when all three succeed, `ReadFile` returns the
whole content of the stream and no error. -/
theorem gsutil_readfile_read {ε σ : Type} (parseURL : GoString → Except ε gsurl.NetURL)
    (storage : Storage σ) (url : GoString) (u : gsurl.URL)
    (h : gsurl.Parse parseURL url = .ok u) :
    (∀ err : σ, storage.NewClient = some err →
        (ReadFile parseURL storage url).result =
          .error (.read { URL := url, Err := err })) ∧
      (storage.NewClient = none →
        (∀ err : σ, storage.NewReader u.Bucket u.Object = .error err →
          (ReadFile parseURL storage url).result =
            .error (.read { URL := url, Err := err })) ∧
        (∀ rc : Stream σ, storage.NewReader u.Bucket u.Object = .ok rc →
          (∀ err : σ, (ioutilReadAll rc).2 = some err →
            (ReadFile parseURL storage url).result =
              .error (.read { URL := url, Err := err })) ∧
          ((ioutilReadAll rc).2 = none →
            (ReadFile parseURL storage url).result = .ok rc.chunks.flatten))) := by
  constructor
  · intro err hc
    simp only [ReadFile, h, hc]
  · intro hc
    constructor
    · intro err hr
      simp only [ReadFile, h, hc, hr]
    · intro rc hr
      constructor
      · intro err hread
        simp only [ioutilReadAll] at hread
        simp only [ReadFile, h, hc, hr, ioutilReadAll, hread]
      · intro hread
        simp only [ioutilReadAll] at hread
        simp only [ReadFile, h, hc, hr, ioutilReadAll, hread]

/-- C15 at `gs://bucket/object`, whose object holds the byte `a`, and at
`gs://aaa/b`, which the sample storage cannot open. -/
theorem gsutil_readfile_read_witness :
    (ReadFile parseURLReadTests storageSample (lit "gs://bucket/object")).result =
        .ok (lit "a") ∧
      (ReadFile gsurl.parseURLSample storageSample (lit "gs://aaa/b")).result =
        .error (.read { URL := lit "gs://aaa/b", Err := "storage: object doesn\x27t exist" }) :=
  ⟨((gsutil_readfile_read parseURLReadTests storageSample (lit "gs://bucket/object")
      { Bucket := lit "bucket", Object := lit "object" } (by decide)).2 rfl).2
      { chunks := [lit "a"], err := none } (by decide) |>.2 rfl,
    ((gsutil_readfile_read gsurl.parseURLSample storageSample (lit "gs://aaa/b")
      { Bucket := lit "aaa", Object := lit "b" } (by decide)).2 rfl).1
      "storage: object doesn\x27t exist" (by decide)⟩

/-- C16: in every run of `gsutil.ReadFile`, whatever the storage SDK answers, a
client that `storage.NewClient` returned is closed exactly once, by the last call
of the run; a reader that `NewReader` returned is closed exactly once, before the
client; and without a client or a reader nothing is closed.  The calls of each
path are given in full, and on every path they are in order and leave no handle
open. -/
theorem gsutil_readfile_releases {ε σ : Type}
    (parseURL : GoString → Except ε gsurl.NetURL) (storage : Storage σ) (url : GoString) :
    (Handles.run { client := false, reader := false }
          (ReadFile parseURL storage url).calls =
          some { client := false, reader := false } ∧
        (ReadFile parseURL storage url).calls.count .ClientClose =
          (ReadFile parseURL storage url).calls.count (.NewClient true) ∧
        (ReadFile parseURL storage url).calls.count .ClientClose ≤ 1 ∧
        (ReadFile parseURL storage url).calls.count .ReaderClose =
          (ReadFile parseURL storage url).calls.countP Event.opensReader ∧
        (ReadFile parseURL storage url).calls.count .ReaderClose ≤ 1) ∧
      (∀ err : gsurl.Error ε, gsurl.Parse parseURL url = .error err →
        (ReadFile parseURL storage url).calls = []) ∧
      (∀ u : gsurl.URL, gsurl.Parse parseURL url = .ok u →
        (∀ err : σ, storage.NewClient = some err →
          (ReadFile parseURL storage url).calls = [.NewClient false]) ∧
        (storage.NewClient = none →
          (ReadFile parseURL storage url).calls.count .ClientClose = 1 ∧
          (ReadFile parseURL storage url).calls.getLast? = some .ClientClose ∧
          (∀ err : σ, storage.NewReader u.Bucket u.Object = .error err →
            (ReadFile parseURL storage url).calls.count .ReaderClose = 0 ∧
            (ReadFile parseURL storage url).calls =
              [.NewClient true, .NewReader u.Bucket u.Object false, .ClientClose]) ∧
          (∀ rc : Stream σ, storage.NewReader u.Bucket u.Object = .ok rc →
            (ReadFile parseURL storage url).calls.count .ReaderClose = 1 ∧
            (ReadFile parseURL storage url).calls =
              [.NewClient true, .NewReader u.Bucket u.Object true,
                .ReadAll (ioutilReadAll rc).2.isNone, .ReaderClose, .ClientClose]))) := by
  refine ⟨?_, ?_, ?_⟩
  · cases hp : gsurl.Parse parseURL url with
    | error err => simp [ReadFile, hp, Handles.run]
    | ok u =>
      cases hc : storage.NewClient with
      | some err => simp [ReadFile, hp, hc, Handles.run, Handles.step, Event.opensReader]
      | none =>
        cases hr : storage.NewReader u.Bucket u.Object with
        | error err =>
          simp [ReadFile, hp, hc, hr, Handles.run, Handles.step, Event.opensReader]
        | ok rc =>
          cases hread : rc.err with
          | some err =>
            simp [ReadFile, hp, hc, hr, ioutilReadAll, hread, Handles.run, Handles.step,
              Event.opensReader]
          | none =>
            simp [ReadFile, hp, hc, hr, ioutilReadAll, hread, Handles.run, Handles.step,
              Event.opensReader]
  · intro err hp
    simp only [ReadFile, hp]
  · intro u hp
    constructor
    · intro err hc
      simp only [ReadFile, hp, hc]
    · intro hc
      have hcalls : ∀ rc : Stream σ, storage.NewReader u.Bucket u.Object = .ok rc →
          (ReadFile parseURL storage url).calls =
            [.NewClient true, .NewReader u.Bucket u.Object true,
              .ReadAll (ioutilReadAll rc).2.isNone, .ReaderClose, .ClientClose] := by
        intro rc hr
        cases hread : rc.err with
        | some err => simp [ReadFile, hp, hc, hr, ioutilReadAll, hread]
        | none => simp [ReadFile, hp, hc, hr, ioutilReadAll, hread]
      have hfail : ∀ err : σ, storage.NewReader u.Bucket u.Object = .error err →
          (ReadFile parseURL storage url).calls =
            [.NewClient true, .NewReader u.Bucket u.Object false, .ClientClose] := by
        intro err hr
        simp [ReadFile, hp, hc, hr]
      refine ⟨?_, ?_, ?_, ?_⟩
      · cases hr : storage.NewReader u.Bucket u.Object with
        | error err => rw [hfail err hr]; simp
        | ok rc => rw [hcalls rc hr]; simp
      · cases hr : storage.NewReader u.Bucket u.Object with
        | error err => rw [hfail err hr]; simp
        | ok rc => rw [hcalls rc hr]; simp
      · intro err hr
        refine ⟨?_, hfail err hr⟩
        rw [hfail err hr]; simp
      · intro rc hr
        refine ⟨?_, hcalls rc hr⟩
        rw [hcalls rc hr]; simp

/-- C16 at `gs://bucket/object`, where a client and a reader are obtained and
the reader is closed before the client, and at `gs://aaa/b`, where the sample
storage returns a client but no reader and only the client is closed. -/
theorem gsutil_readfile_releases_witness :
    (ReadFile parseURLReadTests storageSample (lit "gs://bucket/object")).calls =
        [.NewClient true, .NewReader (lit "bucket") (lit "object") true, .ReadAll true,
          .ReaderClose, .ClientClose] ∧
      (ReadFile gsurl.parseURLSample storageSample (lit "gs://aaa/b")).calls =
        [.NewClient true, .NewReader (lit "aaa") (lit "b") false, .ClientClose] :=
  ⟨((((gsutil_readfile_releases parseURLReadTests storageSample
      (lit "gs://bucket/object")).2.2 { Bucket := lit "bucket", Object := lit "object" }
      (by decide)).2 rfl).2.2.2 { chunks := [lit "a"], err := none } (by decide)).2,
    ((((gsutil_readfile_releases gsurl.parseURLSample storageSample
      (lit "gs://aaa/b")).2.2 { Bucket := lit "aaa", Object := lit "b" }
      (by decide)).2 rfl).2.2.1 "storage: object doesn\x27t exist" (by decide)).2⟩

/-! ## The rule that an error of `bqurl.Parse` names -/

/-- An error of `bqurl.Parse` on a non-empty input names a field and a test
that this field fails, the length being counted in bytes, as `len` does. -/
theorem parse_error_names_test (u : GoString) (hu : u ≠ []) (e : String)
    (h : bqurl.Parse u = .error e) :
    ((e = "project_id must be at least 6 characters" ∧
          (cut u (byteOf ':')).1.length < 6) ∨
        (e = "project_id must be no more then 30 characters" ∧
          30 < (cut u (byteOf ':')).1.length) ∨
        (e = "project_id must start with a lowercase letter" ∧
          ∃ c, (toRunes (cut u (byteOf ':')).1).head? = some c ∧ ¬ IsLower c) ∨
        (e = "project_id must not end with a hyphen" ∧
          (toRunes (cut u (byteOf ':')).1).getLast? = some '-'.toNat) ∨
        (e = "project_id may only contain lowercase letters, digits, or hyphens" ∧
          ∃ c ∈ toRunes (cut u (byteOf ':')).1, ¬ ProjectChar c)) ∨
      ((e = "dataset_id must be no more then 1024 characters" ∧
          1024 < (cut (cut u (byteOf ':')).2 (byteOf '.')).1.length) ∨
        (e = "dataset_id may only contain lowercase letters, uppercase letters, digits, or underscores" ∧
          ∃ c ∈ toRunes (cut (cut u (byteOf ':')).2 (byteOf '.')).1, ¬ WordChar c)) ∨
      ((e = "table_id must be at least 1 character" ∧ (tablePart u).length < 1) ∨
        (e = "table_id must be no more then 1024 characters" ∧
          1024 < (tablePart u).length) ∨
        (e = "table_id may only contain lowercase letters, uppercase letters, digits, or underscores" ∧
          ∃ c ∈ toRunes (tablePart u), ¬ WordChar c)) := by
  rcases parse_error_source u hu e h with hp | hd | ht
  · exact Or.inl (validateProjectID_some _ _ hp).2
  · exact Or.inr (Or.inl (validateDatasetID_some _ _ hd).2)
  · exact Or.inr (Or.inr (validateTableID_some _ _ ht))

set_option maxRecDepth 100000 in
/-- C17 fails where the length in bytes and the length in characters differ:
the project-id of `éééééééééééééééé:b.c` has 16 characters (32 bytes), and
`bqurl.Parse` returns `project_id must be no more then 30 characters`. -/
theorem bqurl_parse_names_length_in_bytes :
    bqurl.Parse (lit "éééééééééééééééé:b.c") =
        .error "project_id must be no more then 30 characters" ∧
      (cut (lit "éééééééééééééééé:b.c") (byteOf ':')).1 = lit "éééééééééééééééé" ∧
      (toRunes (lit "éééééééééééééééé")).length = 16 ∧
      (lit "éééééééééééééééé").length = 32 := by
  decide!

end GcpHelpers
